import Mathlib

/-!
Verification model of the WindowsNotifier module lifecycle engine.

This file shallowly embeds the module scan engine of the repository:
`core/module_loader.py` (scan_modules, _handle_condition_module),
`core/registry_store.py` (RegistryStore and its record fields),
`core/app.py` (_handle_load_result), `core/module_id.py` (only its
success/failure interface), `shared/manifest_schema.py`
(_validate_condition_script, _validate_condition_interval,
_validate_optional_asset) and `shared/module_definition.py`
(_assign_media, _assign_icon, is_expired, _coerce_interval).

Modelling conventions:
* UTC instants are integers (seconds).  All stored timestamps are written
  by the code at second precision (`replace(microsecond=0)`), so integer
  seconds are exact.
* Registry values are strings.  A stored timestamp string is modelled by
  `RegTime`: `iso t` for a string that `parse_iso8601_utc` /
  `datetime.fromisoformat` accepts (denoting instant `t`), `bad s` for any
  other string.  The empty string is falsy in Python, which matters for
  `if stored_schedule:`; `RegTime.bad ""` models it.
* `FirstSeen` / `CompletedOn` are informational write-only strings; their
  ISO-8601 rendering is abstracted by `timeStr`.
* The results of `load_and_validate_manifest` + `ModuleDefinition` +
  `compute_module_id` for one folder are summarised by `FolderContent`:
  either the manifest file is missing, or validation/hashing raised
  (`invalid` with the exception message), or a validated module with its
  fingerprint (`valid`).  Running the condition script is summarised by
  `scriptResult` (`none` = spawn failure or timeout, otherwise exit code
  with stripped stdout/stderr).
-/

namespace WN

/-- A stored registry timestamp string: either parseable (denoting an
instant) or an arbitrary unparseable string. -/
inductive RegTime where
  | iso (t : Int)
  | bad (s : String)
deriving DecidableEq, Repr

/-- One registry record under `Software\WindowsNotifier\Modules\<key>`;
every field is an optional string-valued registry value
(`registry_store.py`). -/
structure Record where
  status : Option String := none
  moduleHash : Option String := none
  scheduledAt : Option RegTime := none
  firstSeen : Option String := none
  title : Option String := none
  category : Option String := none
  completedOn : Option String := none
  conditionState : Option String := none
  conditionNextRun : Option RegTime := none
  conditionError : Option String := none
deriving DecidableEq, Repr

/-- The registry subtree: association list from module key to record;
presence in the list models existence of the registry key. -/
abbrev Store := List (String × Record)

/-- Raw lookup of a registry key (absence = key does not exist). -/
def findRec (st : Store) (k : String) : Option Record :=
  (st.find? (fun p => p.fst = k)).map Prod.snd

/-- Reads on a missing record return "absent" for every value, so a read
sees the empty record. -/
def lookupRec (st : Store) (k : String) : Record :=
  (findRec st k).getD {}

/-- Write-back of a record; `_open_key(writable=True)` creates the
registry key when missing (`CreateKey`), modelled by appending. -/
def updateRec (st : Store) (k : String) (r : Record) : Store :=
  match st with
  | [] => [(k, r)]
  | (k', r') :: t => if k' = k then (k, r) :: t else (k', r') :: updateRec t k r

/-- Parsed module status (`ModuleStatus` enum); unknown strings parse to
`none` exactly as `get_status` returns `None` on `ValueError`. -/
inductive MStatus where
  | pending
  | completed
  | expired
deriving DecidableEq, Repr

/-- `get_status`: map the stored string through the `ModuleStatus` enum. -/
def parseStatus : Option String → Option MStatus
  | some "Pending" => some .pending
  | some "Completed" => some .completed
  | some "Expired" => some .expired
  | _ => none

/-- Parsed condition state (`ConditionState` enum). -/
inductive CState where
  | waiting
  | triggered
  | cerror
deriving DecidableEq, Repr

/-- `get_condition_state`: map the stored string through the
`ConditionState` enum, `none` on unknown values. -/
def parseCState : Option String → Option CState
  | some "Waiting" => some .waiting
  | some "Triggered" => some .triggered
  | some "Error" => some .cerror
  | _ => none

/-- Abstract ISO-8601 rendering of an instant for the informational
`FirstSeen` value (`_utcnow_iso`); only its presence is ever read back. -/
def timeStr (t : Int) : String := toString t

/-- Parse a stored timestamp; `none` when the stored string does not
parse (covers both `parse_iso8601_utc` and `get_condition_next_run`'s
lenient parse, which differ only on strings the engine never writes). -/
def parseRegTime : Option RegTime → Option Int
  | some (.iso t) => some t
  | _ => none

/-- Python truthiness of the stored `ScheduledAt` string:
`None` and `""` are falsy. -/
def schedTruthy : Option RegTime → Bool
  | none => false
  | some (.iso _) => true
  | some (.bad s) => !(s = "")

/-- Python slice `s[:n]` (first `n` characters). -/
def pyTake (s : String) (n : Nat) : String := ⟨s.data.take n⟩

/-- Python slice `s[-n:]` (last `n` characters, whole string when
shorter). -/
def pyTakeLast (s : String) (n : Nat) : String :=
  ⟨s.data.drop (s.data.length - n)⟩

/-- `mark_first_seen`: write `FirstSeen` once (Python truthiness: absent
or empty counts as unset), force `Status = Pending`, write `Title` /
`Category` when non-empty, delete `CompletedOn`. -/
def markFirstSeen (now : Int) (title category : String) (r : Record) : Record :=
  { r with
    firstSeen :=
      if r.firstSeen = none ∨ r.firstSeen = some "" then some (timeStr now)
      else r.firstSeen,
    status := some "Pending",
    title := if title ≠ "" then some title else r.title,
    category := if category ≠ "" then some category else r.category,
    completedOn := none }

/-- `set_schedule`: `None` deletes the value, otherwise an ISO UTC string
at second precision is written. -/
def setSchedule (v : Option Int) (r : Record) : Record :=
  match v with
  | none => { r with scheduledAt := none }
  | some t => { r with scheduledAt := some (.iso t) }

/-- `mark_expired`. -/
def markExpired (r : Record) : Record := { r with status := some "Expired" }

/-- `set_condition_state`. -/
def setCondState (s : String) (r : Record) : Record :=
  { r with conditionState := some s }

/-- `set_condition_next_run`. -/
def setCondNextRun (t : Int) (r : Record) : Record :=
  { r with conditionNextRun := some (.iso t) }

/-- `set_condition_error`: store the message truncated to 1024 characters
and force `ConditionState = Error`. -/
def setCondError (msg : String) (r : Record) : Record :=
  { r with conditionError := some (pyTake msg 1024),
           conditionState := some "Error" }

/-- `clear_condition_tracking`: delete the three condition values. -/
def clearCondTracking (r : Record) : Record :=
  { r with conditionState := none, conditionNextRun := none,
           conditionError := none }

/-- Everything the scan engine consumes about one successfully validated
module folder: manifest-derived fields of `ModuleDefinition`, the
fingerprint from `compute_module_id`, the existence of the condition
script file and the outcome of running it (`none` = spawn
failure/timeout, otherwise exit code with stripped stdout/stderr). -/
structure ModInfo where
  hash : String
  title : String
  category : String
  isConditional : Bool
  interval : Int := 60
  scheduledUtc : Option Int := none
  expiresUtc : Option Int := none
  scriptExists : Bool := true
  scriptResult : Option (Int × String × String) := none
deriving DecidableEq, Repr

/-- Result of manifest loading/validation/hashing for one folder. -/
inductive FolderContent where
  | missing
  | invalid (msg : String)
  | valid (m : ModInfo)
deriving DecidableEq, Repr

/-- One subdirectory of the modules root. -/
structure Folder where
  name : String
  content : FolderContent
deriving DecidableEq, Repr

/-- `ModuleDefinition.is_expired` with an aware reference time. -/
def isExpired (now : Int) (m : ModInfo) : Bool :=
  match m.expiresUtc with
  | some e => e ≤ now
  | none => false

/-- Line 168 of `module_loader.py`:
`max(5, min(condition_interval_minutes * 60, scan_interval_seconds) - 5)`. -/
def condTimeout (intervalMinutes scanIntervalSeconds : Int) : Int :=
  max 5 (min (intervalMinutes * 60) scanIntervalSeconds - 5)

/-- A module the scan hands to the presentation layer: its key, title and
effective schedule (`module.scheduled_utc` after the stored-schedule
resolution). -/
structure ReadyMod where
  key : String
  title : String
  scheduled : Option Int
deriving DecidableEq, Repr

/-- Outcome of processing one validated folder: the record written back,
the ready module (if any), errors appended, whether the folder survives,
and the timeout used if the condition script was executed. -/
structure StepOut where
  record : Record
  ready : Option ReadyMod
  errs : List (String × String)
  keep : Bool
  ran : Option Int
deriving DecidableEq, Repr

/-- The f-string of `module_loader.py:191`. -/
def condExitMsg (code : Int) (stdout stderr : String) : String :=
  s!"Condition script exited with code {code}. Stdout: {pyTakeLast stdout 200}, Stderr: {pyTakeLast stderr 200}."

/-- The execution tail of `_handle_condition_module` (from the timeout
computation onwards). -/
def handleConditionRun (now si : Int) (k : String) (m : ModInfo)
    (sched : Option Int) (r : Record) : StepOut :=
  let tmo := condTimeout m.interval si
  match m.scriptResult with
  | none =>
      { record := setCondError "Condition script failed to execute." r,
        ready := none,
        errs := [(k, "Condition script failed to execute.")],
        keep := false, ran := some tmo }
  | some (code, stdout, stderr) =>
      if code = 1 then
        { record := setCondState "Triggered" r,
          ready := some ⟨k, m.title, sched⟩, errs := [], keep := true,
          ran := some tmo }
      else if code = 0 then
        { record := setCondNextRun (now + m.interval * 60)
                   (setCondState "Waiting" r),
          ready := none, errs := [], keep := true, ran := some tmo }
      else
        { record := setCondError (condExitMsg code stdout stderr) r,
          ready := none, errs := [(k, condExitMsg code stdout stderr)],
          keep := false, ran := some tmo }

/-- `_handle_condition_module` acting on the module's record `r` (all
registry calls in it use the module's own key).  `sched` is the module's
effective schedule, used only to build the ready entry. -/
def handleCondition (now si : Int) (k : String) (m : ModInfo)
    (sched : Option Int) (r : Record) : StepOut :=
  if !m.scriptExists then
    { record := setCondError "Condition script missing." r, ready := none,
      errs := [(k, "Condition script missing.")], keep := false, ran := none }
  else
    match parseCState r.conditionState with
    | some .cerror =>
        { record := r, ready := none, errs := [], keep := false, ran := none }
    | some .triggered =>
        { record := r, ready := some ⟨k, m.title, sched⟩, errs := [],
          keep := true, ran := none }
    | _ =>
        match parseRegTime r.conditionNextRun with
        | some t =>
            if now < t then
              { record := r, ready := none, errs := [], keep := true, ran := none }
            else handleConditionRun now si k m sched r
        | none => handleConditionRun now si k m sched r

/-- The stored schedule as the engine reads it: `None` unless the stored
string is truthy and parses (`module_loader.py:66-70`). -/
def storedSchedParse (r : Record) : Option Int :=
  if schedTruthy r.scheduledAt then parseRegTime r.scheduledAt else none

/-- `module.scheduled_utc` after lines 65–72: the stored schedule when it
is truthy and parses, otherwise the manifest's schedule. -/
def effectiveSched (m : ModInfo) (r : Record) : Option Int :=
  match storedSchedParse r with
  | some t => some t
  | none => m.scheduledUtc

/-- Lines 62–88 of `scan_modules`: reconcile the fingerprint and re-write
the schedule when `override_schedule` is set.  Returns the record after
these writes, the local `status` value and the effective schedule. -/
def reconcile (now : Int) (m : ModInfo) (r : Record) :
    Record × Option MStatus × Option Int :=
  if r.moduleHash ≠ some m.hash then
    let ra := { r with moduleHash := some m.hash }
    let rb := markFirstSeen now m.title m.category ra
    let rc :=
      if m.isConditional then setCondNextRun now (setCondState "Waiting" rb)
      else clearCondTracking rb
    (setSchedule (effectiveSched m r) rc, some .pending, effectiveSched m r)
  else
    (if (storedSchedParse r).isNone then setSchedule (effectiveSched m r) r
     else r,
     parseStatus r.status, effectiveSched m r)

/-- Lines 62–119 of `scan_modules` for one validated folder, acting on
the folder's own record (every registry call uses key `k`). -/
def stepValid (now si : Int) (k : String) (m : ModInfo) (r : Record) : StepOut :=
  let (r2, status, sched) := reconcile now m r
  if status = some .completed ∨ status = some .expired then
    { record := r2, ready := none, errs := [], keep := false, ran := none }
  else if isExpired now m then
    { record := markExpired r2, ready := none, errs := [], keep := false,
      ran := none }
  else
    let r3 := if status = none then markFirstSeen now m.title m.category r2
              else r2
    if m.isConditional then handleCondition now si k m sched r3
    else
      { record := r3, ready := some ⟨k, m.title, sched⟩, errs := [],
        keep := true, ran := none }

/-- Accumulated scan state: the store, the ready modules, the errors, the
folders that survive on disk, and the keys whose condition script was run
(with the timeout used). -/
structure ScanAcc where
  store : Store
  modules : List ReadyMod
  errors : List (String × String)
  fs : List Folder
  executed : List (String × Int)
deriving DecidableEq, Repr

/-- The loop body of `scan_modules` for one folder. -/
def scanStep (now si : Int) (acc : ScanAcc) (f : Folder) : ScanAcc :=
  match f.content with
  | .missing =>
      { acc with
        errors := acc.errors ++ [(f.name, "Missing manifest.json in " ++ f.name)],
        fs := acc.fs ++ [f] }
  | .invalid e =>
      { acc with errors := acc.errors ++ [(f.name, e)], fs := acc.fs ++ [f] }
  | .valid m =>
      let s := stepValid now si f.name m (lookupRec acc.store f.name)
      { store := updateRec acc.store f.name s.record,
        modules := acc.modules ++ (match s.ready with
          | some rm => [rm]
          | none => []),
        errors := acc.errors ++ s.errs,
        fs := acc.fs ++ (if s.keep then [f] else []),
        executed := acc.executed ++ (match s.ran with
          | some t => [(f.name, t)]
          | none => []) }

/-- Fold of `scanStep` over a folder list from a given accumulator. -/
def scanList (now si : Int) (l : List Folder) (acc : ScanAcc) : ScanAcc :=
  l.foldl (scanStep now si) acc

/-- Order of `sorted(subdirs)`: by folder name. -/
def folderLE (a b : Folder) : Prop := a.name ≤ b.name

instance : DecidableRel folderLE := fun a b =>
  inferInstanceAs (Decidable (a.name ≤ b.name))

instance : IsTotal Folder folderLE := ⟨fun a b => le_total a.name b.name⟩

instance : IsTrans Folder folderLE :=
  ⟨fun _ _ _ h h' => le_trans (α := String) h h'⟩

/-- `scan_modules`: process subdirectories in sorted name order starting
from the given store. -/
def scanModules (fs : List Folder) (st : Store) (now si : Int) : ScanAcc :=
  scanList now si (List.insertionSort folderLE fs) ⟨st, [], [], [], []⟩

/-- Folder names are pairwise distinct (true of subdirectories of one
directory, whose names are the module keys). -/
def nodupNames (fs : List Folder) : Prop := (fs.map Folder.name).Nodup

instance (fs : List Folder) : Decidable (nodupNames fs) :=
  inferInstanceAs (Decidable (fs.map Folder.name).Nodup)

/-- `_coerce_interval` guarantees a positive condition interval for any
`ModuleDefinition` the scan builds. -/
def wfFolder (f : Folder) : Bool :=
  match f.content with
  | .valid m => 1 ≤ m.interval
  | _ => true

/-- Manifest-derived well-formedness of the folder list. -/
def wfFs (fs : List Folder) : Prop := ∀ f ∈ fs, wfFolder f = true

instance (fs : List Folder) : Decidable (wfFs fs) :=
  List.decidableBAll _ fs

/-- Unpacking of `wfFolder` for a validated folder. -/
theorem wfFolder_valid {f : Folder} {m : ModInfo}
    (h : wfFolder f = true) (hc : f.content = .valid m) : 1 ≤ m.interval := by
  unfold wfFolder at h
  rw [hc] at h
  exact of_decide_eq_true h

/-- The sort key of `app.py:209`: `((m.scheduled_utc or now), m.title)`
compared lexicographically. -/
def hlrLE (now : Int) (a b : ReadyMod) : Prop :=
  a.scheduled.getD now < b.scheduled.getD now ∨
    (a.scheduled.getD now = b.scheduled.getD now ∧ a.title ≤ b.title)

instance (now : Int) : DecidableRel (hlrLE now) := fun _ _ =>
  inferInstanceAs (Decidable (_ ∨ _))

instance (now : Int) : IsTotal ReadyMod (hlrLE now) :=
  ⟨fun a b => by
    unfold hlrLE
    rcases lt_trichotomy (a.scheduled.getD now) (b.scheduled.getD now) with h | h | h
    · exact Or.inl (Or.inl h)
    · rcases le_total a.title b.title with ht | ht
      · exact Or.inl (Or.inr ⟨h, ht⟩)
      · exact Or.inr (Or.inr ⟨h.symm, ht⟩)
    · exact Or.inr (Or.inl h)⟩

instance (now : Int) : IsTrans ReadyMod (hlrLE now) :=
  ⟨fun a b c hab hbc => by
    unfold hlrLE at *
    rcases hab with h | ⟨h, ht⟩
    · rcases hbc with h' | ⟨h', _⟩
      · exact Or.inl (h.trans h')
      · exact Or.inl (h'.symm ▸ h)
    · rcases hbc with h' | ⟨h', ht'⟩
      · exact Or.inl (h ▸ h')
      · exact Or.inr ⟨h.trans h', ht.trans ht'⟩⟩

/-- `scheduled and scheduled > now` of `app.py:203`: the module is kept
back for the future. -/
def schedFuture (now : Int) (m : ReadyMod) : Bool :=
  match m.scheduled with
  | some t => now < t
  | none => false

/-- The loop body of `_handle_load_result`: `(seen keys, due list, future
count)` accumulator. -/
def hlrStep (now : Int) (currentKey : Option String)
    (acc : List String × List ReadyMod × Nat) (m : ReadyMod) :
    List String × List ReadyMod × Nat :=
  let (seen, due, fc) := acc
  if m.key ∈ seen then acc
  else
    let seen' := seen ++ [m.key]
    if currentKey = some m.key then (seen', due, fc)
    else if schedFuture now m then (seen', due, fc + 1)
    else (seen', due ++ [m], fc)

/-- `_handle_load_result` (`app.py:188`): deduplicate by key, exclude the
module being presented, split due vs future, then sort the due list by
`(scheduled_utc or now, title)`. -/
def handleLoadResult (mods : List ReadyMod) (now : Int)
    (currentKey : Option String) : List ReadyMod × Nat :=
  let (_, due, fc) := mods.foldl (hlrStep now currentKey) ([], [], 0)
  (List.insertionSort (hlrLE now) due, fc)

/-- First-occurrence-wins deduplication by module key, stated
independently of the fold. -/
def dedupByKey : List ReadyMod → List ReadyMod
  | [] => []
  | m :: t => m :: dedupByKey (t.filter (fun x => x.key ≠ m.key))
termination_by l => l.length
decreasing_by
  simp only [List.length_cons]
  exact Nat.lt_succ_of_le (List.length_filter_le _ t)

/-- A JSON value as `json.loads` delivers it to the validators.  JSON
numbers are modelled as integers; non-integer JSON numbers are outside
the model (none of the claims depends on them). -/
inductive JVal where
  | null
  | jbool (b : Bool)
  | num (n : Int)
  | str (s : String)
deriving DecidableEq, Repr

/-- `str.startswith` (`p.isPrefixOf` on the character list). -/
def strStarts (s p : String) : Bool := p.data.isPrefixOf s.data

/-- `str.endswith` (suffix of the character list). -/
def strEnds (s p : String) : Bool := p.data.isSuffixOf s.data

/-- `str.lower` (ASCII; the references in play are ASCII). -/
def strToLower (s : String) : String := ⟨s.data.map Char.toLower⟩

/-- Python `str.strip()`: drop whitespace from both ends. -/
def pyStrip (s : String) : String :=
  ⟨((s.data.dropWhile Char.isWhitespace).reverse.dropWhile
      Char.isWhitespace).reverse⟩

/-- `_require_string` for the callers without a length bound: `None` (or
JSON null, which `dict.get` also returns as `None`) is an error iff
required; non-strings are errors; strings are stripped and, when
required, must be non-empty. -/
def requireString (v : Option JVal) (field : String) (required : Bool) :
    Except String String :=
  match v with
  | none => if required then .error (field ++ " is required.") else .ok ""
  | some .null =>
      if required then .error (field ++ " is required.") else .ok ""
  | some (.str s) =>
      let stripped := pyStrip s
      if required ∧ stripped = "" then
        .error (field ++ " must be a non-empty string.")
      else .ok stripped
  | some _ => .error (field ++ " must be a string.")

/-- Decimal digit accumulator. -/
def digitsToNat (l : List Char) : Nat :=
  l.foldl (fun acc c => acc * 10 + (c.toNat - 48)) 0

/-- Python `int(s)` on a string: strip, optional sign, decimal digits
(digit-group underscores are not modelled). -/
def pyIntOfStr (s : String) : Option Int :=
  let t := pyStrip s
  let signDigits : Int × List Char :=
    match t.data with
    | '-' :: rest => (-1, rest)
    | '+' :: rest => (1, rest)
    | l => (1, l)
  if signDigits.2 ≠ [] ∧ signDigits.2.all Char.isDigit then
    some (signDigits.1 * digitsToNat signDigits.2)
  else none

/-- `_validate_condition_interval`: absent/null defaults to 60, booleans
are rejected, everything else goes through Python `int()` coercion and
must land strictly above zero. -/
def validateConditionInterval (v : Option JVal) : Except String Int :=
  match v with
  | none => .ok 60
  | some .null => .ok 60
  | some (.jbool _) =>
      .error "condition_interval_minutes must be a positive integer."
  | some (.num n) =>
      if n ≤ 0 then
        .error "condition_interval_minutes must be greater than zero."
      else .ok n
  | some (.str s) =>
      match pyIntOfStr s with
      | none => .error "condition_interval_minutes must be a positive integer."
      | some n =>
          if n ≤ 0 then
            .error "condition_interval_minutes must be greater than zero."
          else .ok n

/-- A parsed `PureWindowsPath`: drive, root and the remaining components
(the `parts` minus the anchor). -/
structure WinPath where
  drive : String
  root : String
  comps : List String
deriving DecidableEq, Repr

/-- pathlib's alternate-separator replacement (`/` → `\`). -/
def repChar (c : Char) : Char := if c = '/' then '\\' else c

/-- `str.replace('/', '\\')`. -/
def winReplace (s : String) : String := ⟨s.data.map repChar⟩

/-- Split a character list at the first backslash. -/
def breakSep (l : List Char) : Option (List Char × List Char) :=
  match l with
  | [] => none
  | c :: t =>
      if c = '\\' then some ([], t)
      else
        match breakSep t with
        | some (a, b) => some (c :: a, b)
        | none => none

/-- `ntpath.splitroot` on a backslash-normalized character list
(`\\?\`-style device paths are outside the model): returns
(drive, root, rest). -/
def winSplitRoot (l : List Char) : List Char × List Char × List Char :=
  match l with
  | '\\' :: '\\' :: rest =>
      match breakSep rest with
      | none => (l, [], [])
      | some (srv, rest2) =>
          match breakSep rest2 with
          | none => (l, [], [])
          | some (share, rest3) =>
              ('\\' :: '\\' :: srv ++ '\\' :: share, ['\\'], rest3)
  | '\\' :: rest => ([], ['\\'], rest)
  | a :: ':' :: '\\' :: rest => ([a, ':'], ['\\'], rest)
  | a :: ':' :: rest => ([a, ':'], [], rest)
  | _ => ([], [], l)

/-- Split a character list at every backslash. -/
def splitChars : List Char → List (List Char)
  | [] => [[]]
  | c :: t =>
      let r := splitChars t
      if c = '\\' then [] :: r
      else
        match r with
        | h :: t2 => (c :: h) :: t2
        | [] => [[c]]

/-- Split the post-root text into path components; pathlib drops empty
and `.` components. -/
def splitComps (l : List Char) : List String :=
  ((splitChars l).map String.mk).filter (fun c => c ≠ "" ∧ c ≠ ".")

/-- Parse a string as `PureWindowsPath` does: replace `/` by `\`, split
off drive and root, split the rest into components. -/
def winParse (s : String) : WinPath :=
  let l := s.data.map repChar
  let dr := winSplitRoot l
  ⟨String.mk dr.1, String.mk dr.2.1, splitComps dr.2.2⟩

/-- `PureWindowsPath.is_absolute`: a drive and a root. -/
def winIsAbsolute (p : WinPath) : Bool := p.drive ≠ "" ∧ p.root ≠ ""

/-- `_validate_condition_script`: required string, `.ps1` suffix,
not absolute, no `..` component. -/
def validateConditionScript (v : Option JVal) : Except String String :=
  match requireString v "condition_script" true with
  | .error e => .error e
  | .ok script =>
      if !(strEnds script ".ps1") then
        .error "condition_script must reference a PowerShell (.ps1) file."
      else
        let p := winParse script
        if winIsAbsolute p ∨ ".." ∈ p.comps then
          .error "condition_script must be a relative path without traversal."
        else .ok script

/-- `_looks_like_drive_path` (both copies in the source are identical). -/
def looksLikeDrivePath (value : String) : Bool :=
  match value.data with
  | _ :: b :: c :: _ => b = ':' ∧ (c = '/' ∨ c = '\\')
  | _ => false

/-- `_build_asset_error`. -/
def buildAssetErr (field : String) : String :=
  field ++ " must be one of the supported types: relative file path, preset:<name>, http:// or https:// URL, www. URL, UNC/share path (e.g. \\\\server\\share), drive path (e.g. C:\\folder\\file)."

/-- Containment of a character sequence at any position. -/
def containsSeq : List Char → List Char → Bool
  | l@(_ :: t), pat => pat.isPrefixOf l || containsSeq t pat
  | [], pat => pat.isEmpty

/-- `'://' in asset`. -/
def hasSchemeSep (s : String) : Bool := containsSeq s.data "://".data

/-- `_validate_optional_asset`: classify and normalize a media/icon
reference, or reject it. -/
def validateOptionalAsset (v : Option JVal) (field : String) :
    Except String (Option String) :=
  match v with
  | none => .ok none
  | some .null => .ok none
  | some jv =>
      match requireString (some jv) field false with
      | .error e => .error e
      | .ok asset =>
          if asset = "" then .ok none
          else if strStarts asset "preset:" then .ok (some asset)
          else
            let lowered := strToLower asset
            if strStarts lowered "https://" ∨ strStarts lowered "http://" then
              .ok (some asset)
            else if strStarts lowered "www." then
              .ok (some ("https://" ++ asset))
            else if strStarts asset "\\\\" then
              .ok (some ("\\\\" ++
                String.mk ((winReplace asset).data.dropWhile (fun c => c = '\\'))))
            else if strStarts asset "/" then .error (buildAssetErr field)
            else if looksLikeDrivePath asset then .ok (some asset)
            else if hasSchemeSep asset then .error (buildAssetErr field)
            else
              let p := winParse asset
              if winIsAbsolute p ∨ ".." ∈ p.comps then
                .error (buildAssetErr field)
              else .ok (some asset)

/-- The value `ModuleDefinition._assign_media` / `_assign_icon` resolves
a reference to: a URL, a parsed drive/UNC path (`Path(reference)`), the
resolved join under the module root (`(root / reference).resolve()`,
kept symbolic since the root is fixed and equal on both sides of every
comparison), or an icon preset. -/
inductive AssetRef where
  | url (u : String)
  | winpath (p : WinPath)
  | reljoin (rel : String)
  | preset (name : Option String)
deriving DecidableEq, Repr

/-- `ModuleDefinition._assign_media` on the stripped reference. -/
def assignMedia (ref : String) : AssetRef :=
  let lowered := strToLower ref
  if strStarts lowered "https://" ∨ strStarts lowered "http://" then .url ref
  else if strStarts lowered "www." then
    .url ("https://" ++ String.mk (ref.data.drop 4))
  else if strStarts ref "\\" ∨ looksLikeDrivePath ref then
    .winpath (winParse ref)
  else .reljoin ref

/-- `ModuleDefinition._assign_icon` on the stripped reference. -/
def assignIcon (ref : String) : AssetRef :=
  let lowered := strToLower ref
  if strStarts lowered "preset:" then
    .preset (if String.mk (lowered.data.drop 7) = "" then none
             else some (String.mk (lowered.data.drop 7)))
  else if strStarts lowered "https://" ∨ strStarts lowered "http://" then
    .url ref
  else if strStarts lowered "www." then
    .url ("https://" ++ String.mk (ref.data.drop 4))
  else if strStarts ref "\\" ∨ looksLikeDrivePath ref then
    .winpath (winParse ref)
  else .reljoin ref

/-!  Store lemmas. -/

theorem findRec_updateRec_self (st : Store) (k : String) (r : Record) :
    findRec (updateRec st k r) k = some r := by
  induction st with
  | nil => simp [findRec, updateRec]
  | cons p t ih =>
      obtain ⟨k', r'⟩ := p
      by_cases h : k' = k
      · subst h
        simp [findRec, updateRec]
      · simp only [updateRec, if_neg h]
        simpa [findRec, List.find?_cons, h] using ih

theorem findRec_updateRec_ne (st : Store) (k k' : String) (r : Record)
    (h : k' ≠ k) : findRec (updateRec st k r) k' = findRec st k' := by
  induction st with
  | nil => simp [findRec, updateRec, List.find?, Ne.symm h]
  | cons p t ih =>
      obtain ⟨k₀, r₀⟩ := p
      by_cases h₀ : k₀ = k
      · subst h₀
        simp [findRec, updateRec, List.find?, Ne.symm h]
      · by_cases h₁ : k₀ = k'
        · subst h₁
          simp [findRec, updateRec, if_neg h₀, List.find?]
        · simp only [updateRec, if_neg h₀]
          simpa [findRec, List.find?, h₁] using ih

theorem updateRec_self (st : Store) (k : String) (r : Record)
    (h : findRec st k = some r) : updateRec st k r = st := by
  induction st with
  | nil => simp [findRec] at h
  | cons p t ih =>
      obtain ⟨k₀, r₀⟩ := p
      by_cases h₀ : k₀ = k
      · subst h₀
        simp only [findRec, List.find?_cons_of_pos, decide_eq_true_eq,
          Option.map_some] at h
        simp_all [updateRec]
      · simp only [findRec, List.find?] at h
        rw [show (decide (k₀ = k)) = false from decide_eq_false h₀] at h
        simp only [updateRec, if_neg h₀]
        rw [ih h]

/-!  Scan decomposition and framing lemmas. -/

/-- A scan pass started from an empty accumulator over a given store. -/
def scanZ (now si : Int) (l : List Folder) (st : Store) : ScanAcc :=
  scanList now si l ⟨st, [], [], [], []⟩

theorem scanList_append (now si : Int) (l₁ l₂ : List Folder) (acc : ScanAcc) :
    scanList now si (l₁ ++ l₂) acc =
      scanList now si l₂ (scanList now si l₁ acc) :=
  List.foldl_append _ _ _ _

theorem scanStep_decomp (now si : Int) (acc : ScanAcc) (f : Folder) :
    scanStep now si acc f =
      let s := scanStep now si ⟨acc.store, [], [], [], []⟩ f
      ⟨s.store, acc.modules ++ s.modules, acc.errors ++ s.errors,
       acc.fs ++ s.fs, acc.executed ++ s.executed⟩ := by
  cases h : f.content <;> simp [scanStep, h]

theorem scanList_decomp (now si : Int) (l : List Folder) (acc : ScanAcc) :
    scanList now si l acc =
      ⟨(scanZ now si l acc.store).store,
       acc.modules ++ (scanZ now si l acc.store).modules,
       acc.errors ++ (scanZ now si l acc.store).errors,
       acc.fs ++ (scanZ now si l acc.store).fs,
       acc.executed ++ (scanZ now si l acc.store).executed⟩ := by
  induction l generalizing acc with
  | nil => simp [scanList, scanZ]
  | cons f t ih =>
      have hstep := scanStep_decomp now si acc f
      show scanList now si t (scanStep now si acc f) = _
      rw [ih (scanStep now si acc f)]
      have hR : scanZ now si (f :: t) acc.store =
          scanList now si t (scanStep now si ⟨acc.store, [], [], [], []⟩ f) :=
        rfl
      rw [hR, ih (scanStep now si ⟨acc.store, [], [], [], []⟩ f)]
      rw [hstep]
      simp

theorem scanZ_cons (now si : Int) (f : Folder) (t : List Folder) (st : Store) :
    scanZ now si (f :: t) st =
      let s := scanStep now si ⟨st, [], [], [], []⟩ f
      ⟨(scanZ now si t s.store).store,
       s.modules ++ (scanZ now si t s.store).modules,
       s.errors ++ (scanZ now si t s.store).errors,
       s.fs ++ (scanZ now si t s.store).fs,
       s.executed ++ (scanZ now si t s.store).executed⟩ := by
  show scanList now si (f :: t) _ = _
  simp only [scanList, List.foldl_cons]
  rw [show List.foldl (scanStep now si)
        (scanStep now si ⟨st, [], [], [], []⟩ f) t =
        scanList now si t (scanStep now si ⟨st, [], [], [], []⟩ f) from rfl,
      scanList_decomp]

theorem scanZ_split (now si : Int) (l₁ : List Folder) (f : Folder)
    (l₂ : List Folder) (st : Store) :
    scanZ now si (l₁ ++ f :: l₂) st =
      let z₁ := scanZ now si l₁ st
      let s := scanStep now si ⟨z₁.store, [], [], [], []⟩ f
      let z₂ := scanZ now si l₂ s.store
      ⟨z₂.store, z₁.modules ++ s.modules ++ z₂.modules,
       z₁.errors ++ s.errors ++ z₂.errors,
       z₁.fs ++ s.fs ++ z₂.fs,
       z₁.executed ++ s.executed ++ z₂.executed⟩ := by
  show scanList now si (l₁ ++ f :: l₂) _ = _
  rw [scanList_append]
  rw [show scanList now si l₁ ⟨st, [], [], [], []⟩ = scanZ now si l₁ st from rfl]
  rw [show scanList now si (f :: l₂) (scanZ now si l₁ st) =
        scanList now si l₂
          (scanStep now si (scanZ now si l₁ st) f) from rfl]
  rw [scanStep_decomp now si (scanZ now si l₁ st) f]
  rw [scanList_decomp]

/-- The step for one folder only reads and writes that folder's key. -/
theorem scanStep_store_frame (now si : Int) (st : Store) (f : Folder)
    (k : String) (h : k ≠ f.name) :
    findRec (scanStep now si ⟨st, [], [], [], []⟩ f).store k = findRec st k := by
  cases hc : f.content with
  | missing => simp [scanStep, hc]
  | invalid e => simp [scanStep, hc]
  | valid m => simp [scanStep, hc, findRec_updateRec_ne _ _ _ _ h]

/-- A scan never touches a key that is not among the folder names. -/
theorem scanZ_store_frame (now si : Int) (l : List Folder) (st : Store)
    (k : String) (h : k ∉ l.map Folder.name) :
    findRec (scanZ now si l st).store k = findRec st k := by
  induction l generalizing st with
  | nil => simp [scanZ, scanList]
  | cons f t ih =>
      simp only [List.map_cons, List.mem_cons, not_or] at h
      rw [scanZ_cons]
      simp only
      rw [ih _ h.2, scanStep_store_frame now si st f k h.1]

theorem handleConditionRun_ready_key (now si : Int) (k : String) (m : ModInfo)
    (sched : Option Int) (r : Record) (rm : ReadyMod)
    (h : (handleConditionRun now si k m sched r).ready = some rm) :
    rm.key = k := by
  cases hsr : m.scriptResult with
  | none => simp [handleConditionRun, hsr] at h
  | some p =>
      obtain ⟨code, stdout, stderr⟩ := p
      simp only [handleConditionRun, hsr] at h
      split_ifs at h <;>
        first
          | (simp only [Option.some.injEq] at h; subst h; rfl)
          | simp_all

theorem handleCondition_ready_key (now si : Int) (k : String) (m : ModInfo)
    (sched : Option Int) (r : Record) (rm : ReadyMod)
    (h : (handleCondition now si k m sched r).ready = some rm) :
    rm.key = k := by
  unfold handleCondition at h
  split_ifs at h with hs
  rcases hc : parseCState r.conditionState with _ | st
  · simp only [hc] at h
    rcases hn : parseRegTime r.conditionNextRun with _ | t
    · simp only [hn] at h
      exact handleConditionRun_ready_key _ _ _ _ _ _ _ h
    · simp only [hn] at h
      split_ifs at h <;>
        first
          | exact handleConditionRun_ready_key _ _ _ _ _ _ _ h
          | simp_all
  · cases st with
    | waiting =>
        simp only [hc] at h
        rcases hn : parseRegTime r.conditionNextRun with _ | t
        · simp only [hn] at h
          exact handleConditionRun_ready_key _ _ _ _ _ _ _ h
        · simp only [hn] at h
          split_ifs at h <;>
            first
              | exact handleConditionRun_ready_key _ _ _ _ _ _ _ h
              | simp_all
    | triggered =>
        simp only [hc, Option.some.injEq] at h
        subst h; rfl
    | cerror => simp only [hc] at h; simp_all

theorem stepValid_ready_key (now si : Int) (k : String) (m : ModInfo)
    (r : Record) (rm : ReadyMod)
    (h : (stepValid now si k m r).ready = some rm) : rm.key = k := by
  rcases hrec : reconcile now m r with ⟨r2, status, sched⟩
  simp only [stepValid, hrec] at h
  split_ifs at h <;>
    first
      | exact handleCondition_ready_key _ _ _ _ _ _ _ h
      | (simp only [Option.some.injEq] at h; subst h; rfl)
      | simp_all

/-- Every ready module produced by a scan carries the name of one of the
scanned folders as its key. -/
theorem scanZ_modules_key_mem (now si : Int) (l : List Folder) (st : Store) :
    ∀ rm ∈ (scanZ now si l st).modules, rm.key ∈ l.map Folder.name := by
  induction l generalizing st with
  | nil => simp [scanZ, scanList]
  | cons f t ih =>
      rw [scanZ_cons]
      intro rm hrm
      simp only [List.mem_append] at hrm
      rcases hrm with hrm | hrm
      · cases hc : f.content with
        | missing => simp [scanStep, hc] at hrm
        | invalid e => simp [scanStep, hc] at hrm
        | valid m =>
            simp only [scanStep, hc] at hrm
            rcases hr : (stepValid now si f.name m (lookupRec st f.name)).ready
              with _ | rm'
            · simp [hr] at hrm
            · simp only [hr, List.nil_append, List.mem_singleton] at hrm
              subst hrm
              simp [stepValid_ready_key _ _ _ _ _ _ hr]
      · exact List.mem_cons_of_mem _ (ih _ rm hrm)

/-- Every surviving folder was one of the scanned folders. -/
theorem scanZ_fs_mem (now si : Int) (l : List Folder) (st : Store) :
    ∀ g ∈ (scanZ now si l st).fs, g ∈ l := by
  induction l generalizing st with
  | nil => simp [scanZ, scanList]
  | cons f t ih =>
      rw [scanZ_cons]
      intro g hg
      simp only [List.mem_append] at hg
      rcases hg with hg | hg
      · cases hc : f.content with
        | missing =>
            simp only [scanStep, hc, List.nil_append, List.mem_singleton] at hg
            exact hg ▸ List.mem_cons_self f t
        | invalid e =>
            simp only [scanStep, hc, List.nil_append, List.mem_singleton] at hg
            exact hg ▸ List.mem_cons_self f t
        | valid m =>
            simp only [scanStep, hc] at hg
            split_ifs at hg with hkeep
            · simp only [List.nil_append, List.mem_singleton] at hg
              exact hg ▸ List.mem_cons_self f t
            · simp at hg
      · exact List.mem_cons_of_mem _ (ih _ g hg)

/-- Every executed-script entry carries the name of a scanned folder. -/
theorem scanZ_executed_key_mem (now si : Int) (l : List Folder) (st : Store) :
    ∀ p ∈ (scanZ now si l st).executed, p.1 ∈ l.map Folder.name := by
  induction l generalizing st with
  | nil => simp [scanZ, scanList]
  | cons f t ih =>
      rw [scanZ_cons]
      intro p hp
      simp only [List.mem_append] at hp
      rcases hp with hp | hp
      · cases hc : f.content with
        | missing => simp [scanStep, hc] at hp
        | invalid e => simp [scanStep, hc] at hp
        | valid m =>
            simp only [scanStep, hc] at hp
            rcases hr : (stepValid now si f.name m (lookupRec st f.name)).ran
              with _ | t0
            · simp [hr] at hp
            · simp only [hr, List.nil_append, List.mem_singleton] at hp
              subst hp
              simp
      · exact List.mem_cons_of_mem _ (ih _ p hp)

/-- Sorting preserves membership. -/
theorem mem_sortFolders (fs : List Folder) (f : Folder) :
    f ∈ List.insertionSort folderLE fs ↔ f ∈ fs :=
  (List.perm_insertionSort folderLE fs).mem_iff

/-- Sorting preserves name-distinctness. -/
theorem nodupNames_sortFolders (fs : List Folder) (h : nodupNames fs) :
    ((List.insertionSort folderLE fs).map Folder.name).Nodup :=
  (((List.perm_insertionSort folderLE fs).map Folder.name).nodup_iff).2 h

/-- Split a name-distinct folder list around a member. -/
theorem exists_split_of_mem_nodup (l : List Folder) (f : Folder)
    (hf : f ∈ l) (hnd : (l.map Folder.name).Nodup) :
    ∃ l₁ l₂, l = l₁ ++ f :: l₂ ∧ f.name ∉ l₁.map Folder.name ∧
      f.name ∉ l₂.map Folder.name := by
  obtain ⟨l₁, l₂, rfl⟩ := List.append_of_mem hf
  refine ⟨l₁, l₂, rfl, ?_, ?_⟩ <;>
  · rw [List.map_append, List.map_cons] at hnd
    have := (List.nodup_middle).1 hnd
    simp only [List.nodup_cons, List.mem_append] at this
    intro hmem
    exact this.1 (by simp [hmem])

/-!  Projection lemmas for the record operations. -/

@[simp] theorem setSchedule_status (v : Option Int) (r : Record) :
    (setSchedule v r).status = r.status := by cases v <;> rfl

@[simp] theorem setSchedule_moduleHash (v : Option Int) (r : Record) :
    (setSchedule v r).moduleHash = r.moduleHash := by cases v <;> rfl

@[simp] theorem setSchedule_conditionState (v : Option Int) (r : Record) :
    (setSchedule v r).conditionState = r.conditionState := by cases v <;> rfl

@[simp] theorem setSchedule_conditionNextRun (v : Option Int) (r : Record) :
    (setSchedule v r).conditionNextRun = r.conditionNextRun := by
  cases v <;> rfl

@[simp] theorem setSchedule_conditionError (v : Option Int) (r : Record) :
    (setSchedule v r).conditionError = r.conditionError := by cases v <;> rfl

@[simp] theorem setSchedule_completedOn (v : Option Int) (r : Record) :
    (setSchedule v r).completedOn = r.completedOn := by cases v <;> rfl

@[simp] theorem markFirstSeen_status (now : Int) (t c : String) (r : Record) :
    (markFirstSeen now t c r).status = some "Pending" := rfl

@[simp] theorem markFirstSeen_moduleHash (now : Int) (t c : String)
    (r : Record) : (markFirstSeen now t c r).moduleHash = r.moduleHash := rfl

@[simp] theorem markFirstSeen_scheduledAt (now : Int) (t c : String)
    (r : Record) : (markFirstSeen now t c r).scheduledAt = r.scheduledAt := rfl

@[simp] theorem markFirstSeen_completedOn (now : Int) (t c : String)
    (r : Record) : (markFirstSeen now t c r).completedOn = none := rfl

@[simp] theorem markFirstSeen_conditionState (now : Int) (t c : String)
    (r : Record) :
    (markFirstSeen now t c r).conditionState = r.conditionState := rfl

@[simp] theorem markFirstSeen_conditionNextRun (now : Int) (t c : String)
    (r : Record) :
    (markFirstSeen now t c r).conditionNextRun = r.conditionNextRun := rfl

@[simp] theorem markFirstSeen_conditionError (now : Int) (t c : String)
    (r : Record) :
    (markFirstSeen now t c r).conditionError = r.conditionError := rfl

@[simp] theorem markExpired_status (r : Record) :
    (markExpired r).status = some "Expired" := rfl

@[simp] theorem setCondState_conditionState (s : String) (r : Record) :
    (setCondState s r).conditionState = some s := rfl

@[simp] theorem setCondState_status (s : String) (r : Record) :
    (setCondState s r).status = r.status := rfl

@[simp] theorem setCondState_conditionNextRun (s : String) (r : Record) :
    (setCondState s r).conditionNextRun = r.conditionNextRun := rfl

@[simp] theorem setCondNextRun_conditionNextRun (t : Int) (r : Record) :
    (setCondNextRun t r).conditionNextRun = some (.iso t) := rfl

@[simp] theorem setCondNextRun_conditionState (t : Int) (r : Record) :
    (setCondNextRun t r).conditionState = r.conditionState := rfl

@[simp] theorem setCondNextRun_status (t : Int) (r : Record) :
    (setCondNextRun t r).status = r.status := rfl

@[simp] theorem setCondError_conditionState (msg : String) (r : Record) :
    (setCondError msg r).conditionState = some "Error" := rfl

@[simp] theorem setCondError_conditionError (msg : String) (r : Record) :
    (setCondError msg r).conditionError = some (pyTake msg 1024) := rfl

@[simp] theorem setCondError_status (msg : String) (r : Record) :
    (setCondError msg r).status = r.status := rfl

@[simp] theorem clearCondTracking_conditionState (r : Record) :
    (clearCondTracking r).conditionState = none := rfl

@[simp] theorem clearCondTracking_conditionNextRun (r : Record) :
    (clearCondTracking r).conditionNextRun = none := rfl

@[simp] theorem clearCondTracking_status (r : Record) :
    (clearCondTracking r).status = r.status := rfl

@[simp] theorem setCondState_moduleHash (s : String) (r : Record) :
    (setCondState s r).moduleHash = r.moduleHash := rfl

@[simp] theorem setCondState_scheduledAt (s : String) (r : Record) :
    (setCondState s r).scheduledAt = r.scheduledAt := rfl

@[simp] theorem setCondState_completedOn (s : String) (r : Record) :
    (setCondState s r).completedOn = r.completedOn := rfl

@[simp] theorem setCondState_conditionError (s : String) (r : Record) :
    (setCondState s r).conditionError = r.conditionError := rfl

@[simp] theorem setCondNextRun_moduleHash (t : Int) (r : Record) :
    (setCondNextRun t r).moduleHash = r.moduleHash := rfl

@[simp] theorem setCondNextRun_scheduledAt (t : Int) (r : Record) :
    (setCondNextRun t r).scheduledAt = r.scheduledAt := rfl

@[simp] theorem setCondNextRun_completedOn (t : Int) (r : Record) :
    (setCondNextRun t r).completedOn = r.completedOn := rfl

@[simp] theorem setCondNextRun_conditionError (t : Int) (r : Record) :
    (setCondNextRun t r).conditionError = r.conditionError := rfl

@[simp] theorem clearCondTracking_moduleHash (r : Record) :
    (clearCondTracking r).moduleHash = r.moduleHash := rfl

@[simp] theorem clearCondTracking_scheduledAt (r : Record) :
    (clearCondTracking r).scheduledAt = r.scheduledAt := rfl

@[simp] theorem clearCondTracking_completedOn (r : Record) :
    (clearCondTracking r).completedOn = r.completedOn := rfl

@[simp] theorem clearCondTracking_conditionError (r : Record) :
    (clearCondTracking r).conditionError = none := rfl

@[simp] theorem setCondError_moduleHash (msg : String) (r : Record) :
    (setCondError msg r).moduleHash = r.moduleHash := rfl

@[simp] theorem setCondError_scheduledAt (msg : String) (r : Record) :
    (setCondError msg r).scheduledAt = r.scheduledAt := rfl

@[simp] theorem setCondError_conditionNextRun (msg : String) (r : Record) :
    (setCondError msg r).conditionNextRun = r.conditionNextRun := rfl

@[simp] theorem markExpired_moduleHash (r : Record) :
    (markExpired r).moduleHash = r.moduleHash := rfl

@[simp] theorem markExpired_scheduledAt (r : Record) :
    (markExpired r).scheduledAt = r.scheduledAt := rfl

@[simp] theorem markExpired_conditionState (r : Record) :
    (markExpired r).conditionState = r.conditionState := rfl

@[simp] theorem setSchedule_firstSeen (v : Option Int) (r : Record) :
    (setSchedule v r).firstSeen = r.firstSeen := by cases v <;> rfl

@[simp] theorem setSchedule_title (v : Option Int) (r : Record) :
    (setSchedule v r).title = r.title := by cases v <;> rfl

@[simp] theorem setSchedule_category (v : Option Int) (r : Record) :
    (setSchedule v r).category = r.category := by cases v <;> rfl

@[simp] theorem setSchedule_scheduledAt (v : Option Int) (r : Record) :
    (setSchedule v r).scheduledAt = Option.map RegTime.iso v := by
  cases v <;> rfl

/-!  Parse inversion lemmas. -/

theorem parseStatus_eq_completed {x : Option String}
    (h : parseStatus x = some .completed) : x = some "Completed" := by
  unfold parseStatus at h
  split at h <;> simp_all

theorem parseStatus_eq_expired {x : Option String}
    (h : parseStatus x = some .expired) : x = some "Expired" := by
  unfold parseStatus at h
  split at h <;> simp_all

/-!  Path evaluation lemmas for `stepValid`. -/

/-- `reconcile` when the fingerprint is unchanged. -/
theorem reconcile_same {m : ModInfo} {r : Record} (now : Int)
    (hhash : r.moduleHash = some m.hash) :
    reconcile now m r =
      (if (storedSchedParse r).isNone then setSchedule (effectiveSched m r) r
       else r,
       parseStatus r.status, effectiveSched m r) := by
  unfold reconcile
  rw [if_neg (by simp [hhash])]

/-- A stored-Triggered conditional module with unchanged fingerprint,
presentable status, no expiry and an existing script: ready without
execution, record's condition state untouched. -/
theorem stepValid_triggered {now si : Int} {k : String} {m : ModInfo}
    {r : Record}
    (hcond : m.isConditional = true) (hscript : m.scriptExists = true)
    (hhash : r.moduleHash = some m.hash)
    (htrig : r.conditionState = some "Triggered")
    (hstat1 : parseStatus r.status ≠ some .completed)
    (hstat2 : parseStatus r.status ≠ some .expired)
    (hexp : isExpired now m = false) :
    (stepValid now si k m r).ready = some ⟨k, m.title, effectiveSched m r⟩ ∧
    (stepValid now si k m r).record.conditionState = some "Triggered" ∧
    (stepValid now si k m r).keep = true ∧
    (stepValid now si k m r).ran = none ∧
    (stepValid now si k m r).errs = [] := by
  have hrec := @reconcile_same m r now hhash
  have hr2cs :
      (if (storedSchedParse r).isNone
       then setSchedule (effectiveSched m r) r else r).conditionState =
        some "Triggered" := by
    split_ifs <;> simp [htrig]
  have hr3cs :
      (if parseStatus r.status = none
       then markFirstSeen now m.title m.category
         (if (storedSchedParse r).isNone
          then setSchedule (effectiveSched m r) r else r)
       else (if (storedSchedParse r).isNone
          then setSchedule (effectiveSched m r) r else r)).conditionState =
        some "Triggered" := by
    split_ifs <;> simp [htrig]
  have hnot : ¬ (parseStatus r.status = some MStatus.completed ∨
      parseStatus r.status = some MStatus.expired) := by
    rintro (h | h)
    · exact hstat1 h
    · exact hstat2 h
  simp only [stepValid, hrec]
  rw [if_neg hnot, if_neg (by simp [hexp]), if_pos hcond]
  unfold handleCondition
  rw [if_neg (by simp [hscript])]
  rw [hr3cs]
  simp only [parseCState]
  simpa using hr3cs

theorem lookupRec_congr {st st' : Store} {k k' : String}
    (h : findRec st k = findRec st' k') : lookupRec st k = lookupRec st' k' := by
  unfold lookupRec
  rw [h]

/-!  Claim theorems. -/

/-- C8: for a conditional module with interval `m` minutes and scan
interval `s` seconds, the condition-script timeout used by the engine is
`min(m*60, s) - 5` floored at 5 seconds; in particular
`condTimeout 60 300 = 295`. -/
theorem C8_condition_timeout :
    (∀ m s : Int, condTimeout m s =
      if min (m * 60) s - 5 < 5 then 5 else min (m * 60) s - 5) ∧
    condTimeout 60 300 = 295 := by
  constructor
  · intro m s
    unfold condTimeout
    rcases lt_or_le (min (m * 60) s - 5) 5 with h | h
    · rw [if_pos h, max_eq_left h.le]
    · rw [if_neg (not_lt.2 h), max_eq_right h]
  · decide

/-- A conditional module whose stored condition state is Triggered but
whose condition script file is missing at scan time. -/
def c2xMod : ModInfo :=
  { hash := "h", title := "T", category := "G", isConditional := true,
    scriptExists := false }

def c2xRec : Record :=
  { status := some "Pending", moduleHash := some "h",
    conditionState := some "Triggered" }

/-- C2 counterexample: with `condition_state = Triggered` stored and the
fingerprint unchanged, a scan that finds the script file missing does NOT
report the module ready: it records a condition error, forces the state
to Error and deletes the folder, contradicting "this holds regardless of
the state of the script file at scan time". -/
theorem C2_counterexample :
    c2xRec.conditionState = some "Triggered" ∧
    c2xRec.moduleHash = some c2xMod.hash ∧
    (scanModules [⟨"c", .valid c2xMod⟩] [("c", c2xRec)] 1000 300).modules
      = [] ∧
    (scanModules [⟨"c", .valid c2xMod⟩] [("c", c2xRec)] 1000 300).fs = [] ∧
    (lookupRec
      (scanModules [⟨"c", .valid c2xMod⟩] [("c", c2xRec)] 1000 300).store
      "c").conditionState = some "Error" := by
  refine ⟨rfl, rfl, ?_, ?_, ?_⟩ <;> rfl

/-- C2 (amended): a conditional module whose stored condition state is
Triggered is reported ready — and its condition script is never executed
— on every scan in which its fingerprint is unchanged, its stored status
is not Completed/Expired, it has not expired, and its condition script
file exists; (if the script file is missing the module is instead erased
with a condition error, per the counterexample). -/
theorem C2_triggered_sticky (fs : List Folder) (st : Store) (now si : Int)
    (f : Folder) (m : ModInfo)
    (hnd : nodupNames fs) (hf : f ∈ fs) (hc : f.content = .valid m)
    (hcond : m.isConditional = true) (hscript : m.scriptExists = true)
    (hhash : (lookupRec st f.name).moduleHash = some m.hash)
    (htrig : (lookupRec st f.name).conditionState = some "Triggered")
    (hstat1 : parseStatus (lookupRec st f.name).status ≠ some .completed)
    (hstat2 : parseStatus (lookupRec st f.name).status ≠ some .expired)
    (hexp : isExpired now m = false) :
    (∃ rm ∈ (scanModules fs st now si).modules, rm.key = f.name) ∧
    (lookupRec (scanModules fs st now si).store f.name).conditionState =
      some "Triggered" ∧
    f ∈ (scanModules fs st now si).fs ∧
    (∀ p ∈ (scanModules fs st now si).executed, p.1 ≠ f.name) := by
  have hfl : f ∈ List.insertionSort folderLE fs := (mem_sortFolders fs f).2 hf
  have hndl := nodupNames_sortFolders fs hnd
  obtain ⟨l₁, l₂, hsplit, h₁, h₂⟩ :=
    exists_split_of_mem_nodup _ f hfl hndl
  have ho : scanModules fs st now si = scanZ now si (l₁ ++ f :: l₂) st := by
    rw [show scanModules fs st now si =
        scanZ now si (List.insertionSort folderLE fs) st from rfl, hsplit]
  have hlook : lookupRec (scanZ now si l₁ st).store f.name =
      lookupRec st f.name :=
    lookupRec_congr (scanZ_store_frame now si l₁ st f.name h₁)
  have hsv := @stepValid_triggered now si f.name m
    (lookupRec (scanZ now si l₁ st).store f.name)
    hcond hscript (by rw [hlook]; exact hhash) (by rw [hlook]; exact htrig)
    (by rw [hlook]; exact hstat1) (by rw [hlook]; exact hstat2) hexp
  have hstep : scanStep now si
      ⟨(scanZ now si l₁ st).store, [], [], [], []⟩ f =
      ⟨updateRec (scanZ now si l₁ st).store f.name
        (stepValid now si f.name m
          (lookupRec (scanZ now si l₁ st).store f.name)).record,
       [⟨f.name, m.title,
          effectiveSched m (lookupRec (scanZ now si l₁ st).store f.name)⟩],
       [], [f], []⟩ := by
    simp only [scanStep, hc]
    rw [hsv.1, hsv.2.2.1, hsv.2.2.2.1, hsv.2.2.2.2]
    simp
  rw [ho, scanZ_split]
  simp only [hstep]
  constructor
  · exact ⟨⟨f.name, m.title,
      effectiveSched m (lookupRec (scanZ now si l₁ st).store f.name)⟩,
      by simp, rfl⟩
  constructor
  · have hfind : lookupRec (scanZ now si l₂
        (updateRec (scanZ now si l₁ st).store f.name
          (stepValid now si f.name m
            (lookupRec (scanZ now si l₁ st).store f.name)).record)).store
        f.name =
        (stepValid now si f.name m
          (lookupRec (scanZ now si l₁ st).store f.name)).record := by
      unfold lookupRec
      rw [scanZ_store_frame now si l₂ _ f.name h₂, findRec_updateRec_self]
      rfl
    rw [hfind]
    exact hsv.2.1
  constructor
  · simp
  · intro p hp
    simp only [List.append_nil, List.mem_append] at hp
    rcases hp with hp | hp
    · have := scanZ_executed_key_mem now si l₁ st p hp
      exact fun he => h₁ (he ▸ this)
    · have := scanZ_executed_key_mem now si l₂ _ p hp
      exact fun he => h₂ (he ▸ this)

/-- A healthy stored-Triggered conditional module (script present). -/
def c2wMod : ModInfo :=
  { hash := "h", title := "T", category := "G", isConditional := true,
    scriptExists := true }

def c2wRec : Record :=
  { status := some "Pending", moduleHash := some "h",
    conditionState := some "Triggered" }

theorem C2_triggered_sticky_witness :
    (∃ rm ∈ (scanModules [⟨"c", .valid c2wMod⟩] [("c", c2wRec)]
        1000 300).modules,
      rm.key = (⟨"c", .valid c2wMod⟩ : Folder).name) ∧
    (lookupRec (scanModules [⟨"c", .valid c2wMod⟩] [("c", c2wRec)]
        1000 300).store
      (⟨"c", .valid c2wMod⟩ : Folder).name).conditionState =
        some "Triggered" ∧
    (⟨"c", .valid c2wMod⟩ : Folder) ∈
      (scanModules [⟨"c", .valid c2wMod⟩] [("c", c2wRec)] 1000 300).fs ∧
    (∀ p ∈ (scanModules [⟨"c", .valid c2wMod⟩] [("c", c2wRec)]
        1000 300).executed,
      p.1 ≠ (⟨"c", .valid c2wMod⟩ : Folder).name) :=
  C2_triggered_sticky _ _ 1000 300 _ c2wMod (by decide) (by decide) rfl rfl
    rfl rfl rfl (by decide) (by decide) rfl

/-- `reconcile` when the fingerprint changed (or no record existed). -/
theorem reconcile_changed {m : ModInfo} {r : Record} (now : Int)
    (hne : r.moduleHash ≠ some m.hash) :
    reconcile now m r =
      (setSchedule (effectiveSched m r)
        (if m.isConditional then
          setCondNextRun now (setCondState "Waiting"
            (markFirstSeen now m.title m.category
              { r with moduleHash := some m.hash }))
         else clearCondTracking
            (markFirstSeen now m.title m.category
              { r with moduleHash := some m.hash })),
       some .pending, effectiveSched m r) := by
  unfold reconcile
  rw [if_pos hne]

/-- The module with a changed fingerprint and a parseable stored
schedule used to exhibit the stored-schedule retention. -/
def c1Mod : ModInfo :=
  { hash := "B", title := "T", category := "G", isConditional := false,
    scheduledUtc := some 200 }

def c1Rec : Record :=
  { status := some "Completed", moduleHash := some "A",
    scheduledAt := some (.iso 100) }

/-- A fingerprint-unchanged companion used by the C1 witness. -/
def c1sMod : ModInfo :=
  { hash := "A", title := "T", category := "G", isConditional := false }

def c1sRec : Record :=
  { status := some "Pending", moduleHash := some "A" }

/-- C1 counterexample: the stored hash is "A", the new fingerprint "B",
and the stored schedule (100) parses; after the scan the schedule kept in
the store is still 100, not the manifest's 200 — the manifest does not
override a parseable stored schedule on a fingerprint change. -/
theorem C1_counterexample :
    c1Rec.moduleHash ≠ some c1Mod.hash ∧
    c1Mod.scheduledUtc = some 200 ∧
    (lookupRec (scanModules [⟨"a", .valid c1Mod⟩] [("a", c1Rec)]
        1000 300).store "a").scheduledAt = some (.iso 100) ∧
    (lookupRec (scanModules [⟨"a", .valid c1Mod⟩] [("a", c1Rec)]
        1000 300).store "a").scheduledAt ≠ some (.iso 200) := by
  exact ⟨by decide, rfl, rfl, by decide⟩

/-- C1 (amended): on a fingerprint change (including "no prior record")
the engine persists the new hash, forces status Pending, clears
CompletedOn, resets condition tracking (Waiting with next_run = now when
conditional, cleared otherwise) and re-writes the schedule — the value
written is the stored schedule when one exists and parses, and the
manifest's schedule otherwise.  When the fingerprint is unchanged the
stored status is kept and the stored schedule is kept unless it is
absent or fails to parse, in which case the manifest's schedule is
written. -/
theorem C1_fingerprint_reconcile (now : Int) (m : ModInfo) (r : Record) :
    (r.moduleHash ≠ some m.hash →
      (reconcile now m r).1.moduleHash = some m.hash ∧
      (reconcile now m r).1.status = some "Pending" ∧
      (reconcile now m r).2.1 = some .pending ∧
      (reconcile now m r).1.completedOn = none ∧
      (m.isConditional = true →
        (reconcile now m r).1.conditionState = some "Waiting" ∧
        (reconcile now m r).1.conditionNextRun = some (.iso now)) ∧
      (m.isConditional = false →
        (reconcile now m r).1.conditionState = none ∧
        (reconcile now m r).1.conditionNextRun = none ∧
        (reconcile now m r).1.conditionError = none) ∧
      (∀ t, storedSchedParse r = some t →
        (reconcile now m r).1.scheduledAt = some (.iso t)) ∧
      (storedSchedParse r = none →
        (reconcile now m r).1.scheduledAt =
          Option.map RegTime.iso m.scheduledUtc)) ∧
    (r.moduleHash = some m.hash →
      (reconcile now m r).2.1 = parseStatus r.status ∧
      (∀ t, storedSchedParse r = some t → (reconcile now m r).1 = r) ∧
      (storedSchedParse r = none →
        (reconcile now m r).1 = setSchedule m.scheduledUtc r)) := by
  constructor
  · intro hne
    rw [reconcile_changed now hne]
    refine ⟨?_, ?_, rfl, ?_, ?_, ?_, ?_, ?_⟩
    · split_ifs <;> simp
    · split_ifs <;> simp
    · split_ifs <;> simp
    · intro hcond
      rw [if_pos hcond]
      constructor <;> simp
    · intro hcond
      rw [if_neg (by simp [hcond])]
      refine ⟨by simp, by simp, by simp⟩
    · intro t ht
      have heff : effectiveSched m r = some t := by
        unfold effectiveSched
        rw [ht]
      split_ifs <;> simp [heff]
    · intro hnone
      have heff : effectiveSched m r = m.scheduledUtc := by
        unfold effectiveSched
        rw [hnone]
      split_ifs <;> simp [heff]
  · intro heq
    rw [reconcile_same now heq]
    refine ⟨rfl, ?_, ?_⟩
    · intro t ht
      simp [ht]
    · intro hnone
      have he : effectiveSched m r = m.scheduledUtc := by
        unfold effectiveSched
        rw [hnone]
      simp [hnone, he]

theorem C1_fingerprint_reconcile_witness :
    (reconcile 5 c1Mod c1Rec).1.moduleHash = some c1Mod.hash ∧
    (reconcile 5 c1sMod c1sRec).2.1 = parseStatus c1sRec.status :=
  ⟨((C1_fingerprint_reconcile 5 c1Mod c1Rec).1 (by decide)).1,
   ((C1_fingerprint_reconcile 5 c1sMod c1sRec).2 rfl).1⟩

/-- On an expired module the step never yields a ready module, never
keeps the folder, and the record ends Expired unless it already showed
Completed. -/
theorem stepValid_expired_eval (now si : Int) (k : String) (m : ModInfo)
    (r : Record) (hexp : isExpired now m = true) :
    (stepValid now si k m r).ready = none ∧
    (stepValid now si k m r).keep = false ∧
    (stepValid now si k m r).errs = [] ∧
    (stepValid now si k m r).ran = none ∧
    ((stepValid now si k m r).record.status = some "Expired" ∨
      (r.status = some "Completed" ∧
        (stepValid now si k m r).record.status = some "Completed")) := by
  by_cases hh : r.moduleHash = some m.hash
  · have hrec := @reconcile_same m r now hh
    simp only [stepValid, hrec]
    by_cases hs : parseStatus r.status = some MStatus.completed ∨
        parseStatus r.status = some MStatus.expired
    · rw [if_pos hs]
      refine ⟨rfl, rfl, rfl, rfl, ?_⟩
      rcases hs with hs | hs
      · have hstat := parseStatus_eq_completed hs
        right
        refine ⟨hstat, ?_⟩
        split_ifs <;> simp [hstat]
      · have hstat := parseStatus_eq_expired hs
        left
        split_ifs <;> simp [hstat]
    · rw [if_neg hs, if_pos hexp]
      exact ⟨rfl, rfl, rfl, rfl, Or.inl rfl⟩
  · simp only [stepValid, reconcile_changed now hh]
    rw [if_neg (by simp), if_pos hexp]
    exact ⟨rfl, rfl, rfl, rfl, Or.inl rfl⟩

/-- C4: a module whose expires instant has been reached is never in the
ready set regardless of stored status, condition state or schedule; its
folder is removed and its record is set to Expired unless it already
showed Completed. -/
theorem C4_expiry_precedence (fs : List Folder) (st : Store) (now si : Int)
    (f : Folder) (m : ModInfo) (e : Int)
    (hnd : nodupNames fs) (hf : f ∈ fs) (hc : f.content = .valid m)
    (he : m.expiresUtc = some e) (hle : e ≤ now) :
    (∀ rm ∈ (scanModules fs st now si).modules, rm.key ≠ f.name) ∧
    f ∉ (scanModules fs st now si).fs ∧
    ((lookupRec (scanModules fs st now si).store f.name).status =
        some "Expired" ∨
      ((lookupRec st f.name).status = some "Completed" ∧
        (lookupRec (scanModules fs st now si).store f.name).status =
          some "Completed")) := by
  have hexp : isExpired now m = true := by
    simp [isExpired, he]
    exact hle
  have hfl : f ∈ List.insertionSort folderLE fs := (mem_sortFolders fs f).2 hf
  have hndl := nodupNames_sortFolders fs hnd
  obtain ⟨l₁, l₂, hsplit, h₁, h₂⟩ :=
    exists_split_of_mem_nodup _ f hfl hndl
  have ho : scanModules fs st now si = scanZ now si (l₁ ++ f :: l₂) st := by
    rw [show scanModules fs st now si =
        scanZ now si (List.insertionSort folderLE fs) st from rfl, hsplit]
  have hlook : lookupRec (scanZ now si l₁ st).store f.name =
      lookupRec st f.name :=
    lookupRec_congr (scanZ_store_frame now si l₁ st f.name h₁)
  have hsv := stepValid_expired_eval now si f.name m
    (lookupRec (scanZ now si l₁ st).store f.name) hexp
  have hstep : scanStep now si
      ⟨(scanZ now si l₁ st).store, [], [], [], []⟩ f =
      ⟨updateRec (scanZ now si l₁ st).store f.name
        (stepValid now si f.name m
          (lookupRec (scanZ now si l₁ st).store f.name)).record,
       [], [], [], []⟩ := by
    simp only [scanStep, hc]
    rw [hsv.1, hsv.2.2.1, hsv.2.2.2.1]
    rw [if_neg (by rw [hsv.2.1]; exact Bool.false_ne_true)]
    simp
  rw [ho, scanZ_split]
  simp only [hstep]
  refine ⟨?_, ?_, ?_⟩
  · intro rm hrm
    simp only [List.append_nil, List.mem_append] at hrm
    rcases hrm with hrm | hrm
    · have := scanZ_modules_key_mem now si l₁ st rm hrm
      exact fun hk => h₁ (hk ▸ this)
    · have := scanZ_modules_key_mem now si l₂ _ rm hrm
      exact fun hk => h₂ (hk ▸ this)
  · intro hmem
    simp only [List.append_nil, List.mem_append] at hmem
    rcases hmem with hmem | hmem
    · have := scanZ_fs_mem now si l₁ st f hmem
      exact h₁ (List.mem_map_of_mem Folder.name this)
    · have := scanZ_fs_mem now si l₂ _ f hmem
      exact h₂ (List.mem_map_of_mem Folder.name this)
  · have hfind : lookupRec (scanZ now si l₂
        (updateRec (scanZ now si l₁ st).store f.name
          (stepValid now si f.name m
            (lookupRec (scanZ now si l₁ st).store f.name)).record)).store
        f.name =
        (stepValid now si f.name m
          (lookupRec (scanZ now si l₁ st).store f.name)).record := by
      unfold lookupRec
      rw [scanZ_store_frame now si l₂ _ f.name h₂, findRec_updateRec_self]
      rfl
    rw [hfind]
    rcases hsv.2.2.2.2 with hst | ⟨hcomp, hst⟩
    · exact Or.inl hst
    · exact Or.inr ⟨by rw [← hlook]; exact hcomp, hst⟩

theorem C4_expiry_precedence_witness :
    (∀ rm ∈ (scanModules [⟨"x",
        .valid { hash := "h", title := "T", category := "G",
                 isConditional := false, expiresUtc := some 10 }⟩]
        [] 1000 300).modules,
      rm.key ≠ (⟨"x",
        .valid { hash := "h", title := "T", category := "G",
                 isConditional := false, expiresUtc := some 10 }⟩ :
          Folder).name) ∧
    (⟨"x", .valid { hash := "h", title := "T", category := "G",
                    isConditional := false, expiresUtc := some 10 }⟩ :
        Folder) ∉
      (scanModules [⟨"x",
        .valid { hash := "h", title := "T", category := "G",
                 isConditional := false, expiresUtc := some 10 }⟩]
        [] 1000 300).fs ∧
    ((lookupRec (scanModules [⟨"x",
        .valid { hash := "h", title := "T", category := "G",
                 isConditional := false, expiresUtc := some 10 }⟩]
        [] 1000 300).store
      (⟨"x", .valid { hash := "h", title := "T", category := "G",
                      isConditional := false, expiresUtc := some 10 }⟩ :
          Folder).name).status = some "Expired" ∨
      ((lookupRec ([] : Store)
        (⟨"x", .valid { hash := "h", title := "T", category := "G",
                        isConditional := false, expiresUtc := some 10 }⟩ :
            Folder).name).status = some "Completed" ∧
        (lookupRec (scanModules [⟨"x",
          .valid { hash := "h", title := "T", category := "G",
                   isConditional := false, expiresUtc := some 10 }⟩]
          [] 1000 300).store
        (⟨"x", .valid { hash := "h", title := "T", category := "G",
                        isConditional := false, expiresUtc := some 10 }⟩ :
            Folder).name).status = some "Completed")) :=
  C4_expiry_precedence _ _ 1000 300 _ _ 10 (by decide) (by decide) rfl rfl
    (by decide)

/-- Transfer lemma: inside a scan of name-distinct folders, the effect of
one validated folder is exactly `stepValid` applied to that folder's
record in the initial store. -/
theorem scanModules_valid_step (fs : List Folder) (st : Store) (now si : Int)
    (f : Folder) (m : ModInfo)
    (hnd : nodupNames fs) (hf : f ∈ fs) (hc : f.content = .valid m) :
    (lookupRec (scanModules fs st now si).store f.name =
      (stepValid now si f.name m (lookupRec st f.name)).record) ∧
    ((stepValid now si f.name m (lookupRec st f.name)).ready = none →
      ∀ rm ∈ (scanModules fs st now si).modules, rm.key ≠ f.name) ∧
    (∀ rm, (stepValid now si f.name m (lookupRec st f.name)).ready = some rm →
      rm ∈ (scanModules fs st now si).modules) ∧
    ((stepValid now si f.name m (lookupRec st f.name)).keep = true →
      f ∈ (scanModules fs st now si).fs) ∧
    ((stepValid now si f.name m (lookupRec st f.name)).keep = false →
      f ∉ (scanModules fs st now si).fs) ∧
    (∀ t, (stepValid now si f.name m (lookupRec st f.name)).ran = some t →
      (f.name, t) ∈ (scanModules fs st now si).executed) ∧
    (∀ ep ∈ (stepValid now si f.name m (lookupRec st f.name)).errs,
      ep ∈ (scanModules fs st now si).errors) := by
  have hfl : f ∈ List.insertionSort folderLE fs := (mem_sortFolders fs f).2 hf
  have hndl := nodupNames_sortFolders fs hnd
  obtain ⟨l₁, l₂, hsplit, h₁, h₂⟩ :=
    exists_split_of_mem_nodup _ f hfl hndl
  have ho : scanModules fs st now si = scanZ now si (l₁ ++ f :: l₂) st := by
    rw [show scanModules fs st now si =
        scanZ now si (List.insertionSort folderLE fs) st from rfl, hsplit]
  have hlook : lookupRec (scanZ now si l₁ st).store f.name =
      lookupRec st f.name :=
    lookupRec_congr (scanZ_store_frame now si l₁ st f.name h₁)
  have hstep : scanStep now si
      ⟨(scanZ now si l₁ st).store, [], [], [], []⟩ f =
      ⟨updateRec (scanZ now si l₁ st).store f.name
        (stepValid now si f.name m (lookupRec st f.name)).record,
       (match (stepValid now si f.name m (lookupRec st f.name)).ready with
        | some rm => [rm]
        | none => []),
       (stepValid now si f.name m (lookupRec st f.name)).errs,
       (if (stepValid now si f.name m (lookupRec st f.name)).keep
        then [f] else []),
       (match (stepValid now si f.name m (lookupRec st f.name)).ran with
        | some t => [(f.name, t)]
        | none => [])⟩ := by
    simp only [scanStep, hc, hlook]
    simp
  rw [ho, scanZ_split]
  simp only [hstep]
  refine ⟨?_, ?_, ?_, ?_, ?_, ?_, ?_⟩
  · unfold lookupRec
    rw [scanZ_store_frame now si l₂ _ f.name h₂, findRec_updateRec_self]
    rfl
  · intro hready rm hrm
    rw [hready] at hrm
    simp only [List.append_nil, List.mem_append] at hrm
    rcases hrm with hrm | hrm
    · have := scanZ_modules_key_mem now si l₁ st rm hrm
      exact fun hk => h₁ (hk ▸ this)
    · have := scanZ_modules_key_mem now si l₂ _ rm hrm
      exact fun hk => h₂ (hk ▸ this)
  · intro rm hready
    rw [hready]
    simp
  · intro hkeep
    rw [hkeep]
    simp
  · intro hkeep hmem
    rw [hkeep] at hmem
    simp only [if_neg Bool.false_ne_true, List.append_nil,
      List.mem_append] at hmem
    rcases hmem with hmem | hmem
    · exact h₁ (List.mem_map_of_mem Folder.name
        (scanZ_fs_mem now si l₁ st f hmem))
    · exact h₂ (List.mem_map_of_mem Folder.name
        (scanZ_fs_mem now si l₂ _ f hmem))
  · intro t hran
    rw [hran]
    simp
  · intro ep hep
    simp [hep]

/-- Outcome of `_handle_condition_module` once the script actually runs,
by exit code. -/
theorem handleConditionRun_eval (now si : Int) (k : String) (m : ModInfo)
    (sched : Option Int) (r : Record) :
    (handleConditionRun now si k m sched r).ran =
      some (condTimeout m.interval si) ∧
    (m.scriptResult = none →
      (handleConditionRun now si k m sched r).ready = none ∧
      (handleConditionRun now si k m sched r).keep = false ∧
      (handleConditionRun now si k m sched r).record.conditionState =
        some "Error" ∧
      (handleConditionRun now si k m sched r).record.conditionError =
        some (pyTake "Condition script failed to execute." 1024) ∧
      (handleConditionRun now si k m sched r).errs =
        [(k, "Condition script failed to execute.")]) ∧
    (∀ o e, m.scriptResult = some (1, o, e) →
      (handleConditionRun now si k m sched r).ready =
        some ⟨k, m.title, sched⟩ ∧
      (handleConditionRun now si k m sched r).keep = true ∧
      (handleConditionRun now si k m sched r).record.conditionState =
        some "Triggered" ∧
      (handleConditionRun now si k m sched r).errs = []) ∧
    (∀ o e, m.scriptResult = some (0, o, e) →
      (handleConditionRun now si k m sched r).ready = none ∧
      (handleConditionRun now si k m sched r).keep = true ∧
      (handleConditionRun now si k m sched r).record.conditionState =
        some "Waiting" ∧
      (handleConditionRun now si k m sched r).record.conditionNextRun =
        some (.iso (now + m.interval * 60)) ∧
      (handleConditionRun now si k m sched r).errs = []) ∧
    (∀ c o e, m.scriptResult = some (c, o, e) → c ≠ 1 → c ≠ 0 →
      (handleConditionRun now si k m sched r).ready = none ∧
      (handleConditionRun now si k m sched r).keep = false ∧
      (handleConditionRun now si k m sched r).record.conditionState =
        some "Error" ∧
      (handleConditionRun now si k m sched r).record.conditionError =
        some (pyTake (condExitMsg c o e) 1024) ∧
      (handleConditionRun now si k m sched r).errs =
        [(k, condExitMsg c o e)]) := by
  cases hsr : m.scriptResult with
  | none =>
      refine ⟨?_, ?_, ?_, ?_, ?_⟩ <;> simp [handleConditionRun, hsr]
  | some p =>
      obtain ⟨code, o0, e0⟩ := p
      refine ⟨?_, ?_, ?_, ?_, ?_⟩
      · simp only [handleConditionRun, hsr]
        split_ifs <;> rfl
      · simp [hsr]
      · intro o e heq
        simp only [Option.some.injEq, Prod.mk.injEq] at heq
        obtain ⟨hc1, -, -⟩ := heq
        simp [handleConditionRun, hsr, hc1]
      · intro o e heq
        simp only [Option.some.injEq, Prod.mk.injEq] at heq
        obtain ⟨hc0, -, -⟩ := heq
        simp [handleConditionRun, hsr, hc0]
      · intro c o e heq hne1 hne0
        simp only [Option.some.injEq, Prod.mk.injEq] at heq
        obtain ⟨hcc, hoo, hee⟩ := heq
        subst hcc; subst hoo; subst hee
        simp only [handleConditionRun, hsr]
        rw [if_neg hne1, if_neg hne0]
        simp

/-- `_handle_condition_module` falls through to script execution when the
script exists, the stored state is neither Error nor Triggered, and no
future next-run gate applies. -/
theorem handleCondition_to_run (now si : Int) (k : String) (m : ModInfo)
    (sched : Option Int) (r : Record)
    (hscript : m.scriptExists = true)
    (hc1 : parseCState r.conditionState ≠ some .cerror)
    (hc2 : parseCState r.conditionState ≠ some .triggered)
    (hnr : ∀ t, parseRegTime r.conditionNextRun = some t → t ≤ now) :
    handleCondition now si k m sched r =
      handleConditionRun now si k m sched r := by
  unfold handleCondition
  rw [if_neg (by simp [hscript])]
  rcases hv : parseCState r.conditionState with _ | cs
  · simp only [hv]
    rcases hn : parseRegTime r.conditionNextRun with _ | t
    · simp only [hn]
    · simp only [hn]
      rw [if_neg (not_lt.2 (hnr t hn))]
  · cases cs with
    | waiting =>
        simp only [hv]
        rcases hn : parseRegTime r.conditionNextRun with _ | t
        · simp only [hn]
        · simp only [hn]
          rw [if_neg (not_lt.2 (hnr t hn))]
    | triggered => exact absurd hv hc2
    | cerror => exact absurd hv hc1

/-- Conditions under which a scan actually executes the condition script
of a conditional module, and the resulting reduction of `stepValid` to
`handleConditionRun`. -/
theorem stepValid_runs_eq {now si : Int} {k : String} {m : ModInfo}
    {r : Record}
    (hcond : m.isConditional = true) (hscript : m.scriptExists = true)
    (hexp : isExpired now m = false)
    (hrun : r.moduleHash ≠ some m.hash ∨
      (parseStatus r.status ≠ some .completed ∧
       parseStatus r.status ≠ some .expired ∧
       parseCState r.conditionState ≠ some .cerror ∧
       parseCState r.conditionState ≠ some .triggered ∧
       (∀ t, parseRegTime r.conditionNextRun = some t → t ≤ now))) :
    ∃ r3, stepValid now si k m r =
      handleConditionRun now si k m (effectiveSched m r) r3 := by
  by_cases heq : r.moduleHash = some m.hash
  case neg =>
    have hne : r.moduleHash ≠ some m.hash := heq
    simp only [stepValid, reconcile_changed now hne]
    rw [if_neg (by simp), if_neg (by simp [hexp]),
        if_neg (by simp : ¬ (some MStatus.pending = (none : Option MStatus))),
        if_pos hcond]
    refine ⟨_, handleCondition_to_run now si k m _ _ hscript ?_ ?_ ?_⟩
    · simp [hcond, parseCState]
    · simp [hcond, parseCState]
    · intro t ht
      simp only [hcond, if_true, eq_self_iff_true,
        setSchedule_conditionNextRun, setCondNextRun_conditionNextRun,
        parseRegTime, Option.some.injEq] at ht
      omega
  case pos =>
    obtain ⟨hs1, hs2, hc1, hc2, hnr⟩ := hrun.resolve_left (fun h => h heq)
    simp only [stepValid, reconcile_same now heq]
    rw [if_neg (by rintro (h | h); exacts [hs1 h, hs2 h]),
        if_neg (by simp [hexp]), if_pos hcond]
    have hcs3 : ∀ r3 : Record, r3.conditionState = r.conditionState →
        r3.conditionNextRun = r.conditionNextRun →
        handleCondition now si k m (effectiveSched m r) r3 =
          handleConditionRun now si k m (effectiveSched m r) r3 := by
      intro r3 hcs hnr3
      refine handleCondition_to_run now si k m _ _ hscript ?_ ?_ ?_
      · rw [hcs]; exact hc1
      · rw [hcs]; exact hc2
      · intro t ht
        rw [hnr3] at ht
        exact hnr t ht
    refine ⟨_, hcs3 _ ?_ ?_⟩ <;> split_ifs <;> simp

/-- C3: for every conditional module whose script is executed during a
scan at time `now`: exit code 1 transitions the stored condition state to
Triggered and the module is ready; exit code 0 sets the state to Waiting
with `condition_next_run = now + condition_interval_minutes` and the
module is not ready (folder kept); an execution failure or any other exit
code stores a condition error message (truncated to 1024 characters, the
non-zero-exit message embedding the last 200 characters of stdout and
stderr), forces the state to Error, leaves the module not ready and
deletes its folder. -/
theorem C3_condition_execution (fs : List Folder) (st : Store) (now si : Int)
    (f : Folder) (m : ModInfo)
    (hnd : nodupNames fs) (hf : f ∈ fs) (hc : f.content = .valid m)
    (hcond : m.isConditional = true) (hscript : m.scriptExists = true)
    (hexp : isExpired now m = false)
    (hrun : (lookupRec st f.name).moduleHash ≠ some m.hash ∨
      (parseStatus (lookupRec st f.name).status ≠ some .completed ∧
       parseStatus (lookupRec st f.name).status ≠ some .expired ∧
       parseCState (lookupRec st f.name).conditionState ≠ some .cerror ∧
       parseCState (lookupRec st f.name).conditionState ≠ some .triggered ∧
       (∀ t, parseRegTime (lookupRec st f.name).conditionNextRun = some t →
         t ≤ now))) :
    ((f.name, condTimeout m.interval si) ∈
      (scanModules fs st now si).executed) ∧
    (∀ o e, m.scriptResult = some (1, o, e) →
      (∃ rm ∈ (scanModules fs st now si).modules, rm.key = f.name) ∧
      (lookupRec (scanModules fs st now si).store f.name).conditionState =
        some "Triggered" ∧
      f ∈ (scanModules fs st now si).fs) ∧
    (∀ o e, m.scriptResult = some (0, o, e) →
      (∀ rm ∈ (scanModules fs st now si).modules, rm.key ≠ f.name) ∧
      (lookupRec (scanModules fs st now si).store f.name).conditionState =
        some "Waiting" ∧
      (lookupRec (scanModules fs st now si).store f.name).conditionNextRun =
        some (.iso (now + m.interval * 60)) ∧
      f ∈ (scanModules fs st now si).fs) ∧
    (m.scriptResult = none →
      (∀ rm ∈ (scanModules fs st now si).modules, rm.key ≠ f.name) ∧
      (lookupRec (scanModules fs st now si).store f.name).conditionState =
        some "Error" ∧
      (lookupRec (scanModules fs st now si).store f.name).conditionError =
        some (pyTake "Condition script failed to execute." 1024) ∧
      f ∉ (scanModules fs st now si).fs) ∧
    (∀ c o e, m.scriptResult = some (c, o, e) → c ≠ 1 → c ≠ 0 →
      (∀ rm ∈ (scanModules fs st now si).modules, rm.key ≠ f.name) ∧
      (lookupRec (scanModules fs st now si).store f.name).conditionState =
        some "Error" ∧
      (lookupRec (scanModules fs st now si).store f.name).conditionError =
        some (pyTake (condExitMsg c o e) 1024) ∧
      (f.name, condExitMsg c o e) ∈ (scanModules fs st now si).errors ∧
      f ∉ (scanModules fs st now si).fs) ∧
    (∀ s : String, (pyTake s 1024).length ≤ 1024) := by
  obtain ⟨r3, hsr⟩ := @stepValid_runs_eq now si f.name m
    (lookupRec st f.name) hcond hscript hexp hrun
  obtain ⟨hT1, hT2, hT3, hT4, hT5, hT6, hT7⟩ :=
    scanModules_valid_step fs st now si f m hnd hf hc
  rw [hsr] at hT1 hT2 hT3 hT4 hT5 hT6 hT7
  obtain ⟨hE1, hE2, hE3, hE4, hE5⟩ := handleConditionRun_eval now si f.name m
    (effectiveSched m (lookupRec st f.name)) r3
  refine ⟨hT6 _ hE1, ?_, ?_, ?_, ?_, ?_⟩
  · intro o e h1
    obtain ⟨hready, hkeep, hstate, -⟩ := hE3 o e h1
    refine ⟨⟨_, hT3 _ hready, rfl⟩, ?_, hT4 hkeep⟩
    rw [hT1]
    exact hstate
  · intro o e h0
    obtain ⟨hready, hkeep, hstate, hnext, -⟩ := hE4 o e h0
    exact ⟨hT2 hready, hT1 ▸ hstate, hT1 ▸ hnext, hT4 hkeep⟩
  · intro hnone
    obtain ⟨hready, hkeep, hstate, herr, -⟩ := hE2 hnone
    exact ⟨hT2 hready, hT1 ▸ hstate, hT1 ▸ herr, hT5 hkeep⟩
  · intro c o e hce hne1 hne0
    obtain ⟨hready, hkeep, hstate, herr, herrs⟩ := hE5 c o e hce hne1 hne0
    refine ⟨hT2 hready, hT1 ▸ hstate, hT1 ▸ herr, ?_, hT5 hkeep⟩
    exact hT7 _ (by rw [herrs]; exact List.mem_singleton_self _)
  · intro s
    show (s.data.take 1024).length ≤ 1024
    simpa using List.length_take_le 1024 s.data

/-- Concrete exit-0 conditional module used as the C3 witness. -/
def c3wMod : ModInfo :=
  { hash := "h", title := "T", category := "G", isConditional := true,
    interval := 7, scriptExists := true, scriptResult := some (0, "o", "e") }

theorem C3_condition_execution_witness :
    (("z", condTimeout 7 300) ∈
      (scanModules [⟨"z", .valid c3wMod⟩] [] 1000 300).executed) ∧
    (lookupRec (scanModules [⟨"z", .valid c3wMod⟩] [] 1000 300).store
      "z").conditionNextRun = some (.iso (1000 + 7 * 60)) :=
  have h := C3_condition_execution [⟨"z", .valid c3wMod⟩] [] 1000 300
    ⟨"z", .valid c3wMod⟩ c3wMod (by decide) (by decide) rfl rfl rfl rfl
    (Or.inl (by decide))
  ⟨h.1, (h.2.2.1 "o" "e" rfl).2.2.1⟩

/-- `JVal` constructor discriminator: is the value a JSON integer? -/
def jvalIsInt : JVal → Bool
  | .num _ => true
  | _ => false

/-- C9 counterexample: the JSON string "5" is not an integer, yet
`_validate_condition_interval` accepts it (Python `int("5")`), so
"validation succeeds only if condition_interval_minutes ... is a positive
integer" fails. -/
theorem C9_counterexample :
    jvalIsInt (.str "5") = false ∧
    validateConditionInterval (some (.str "5")) = .ok 5 := by
  constructor
  · rfl
  · rfl

/-- C9 (amended): for a conditional manifest, `condition_script` must be
a string whose stripped value is non-empty, ends in `.ps1`, is not an
absolute Windows path and has no `..` component; and
`condition_interval_minutes` is accepted exactly when it is absent/null
(defaulting to 60), a positive JSON integer, or a string that Python
`int()` coerces to a positive integer — booleans and everything else are
validation errors. -/
theorem C9_conditional_validation :
    (∀ (v : Option JVal) (s : String),
      validateConditionScript v = .ok s ↔
        ((∃ raw, v = some (.str raw) ∧ pyStrip raw = s) ∧ s ≠ "" ∧
         strEnds s ".ps1" = true ∧ winIsAbsolute (winParse s) = false ∧
         ".." ∉ (winParse s).comps)) ∧
    (∀ (v : Option JVal) (n : Int),
      validateConditionInterval v = .ok n ↔
        (((v = none ∨ v = some .null) ∧ n = 60) ∨
         (v = some (.num n) ∧ 0 < n) ∨
         (∃ s, v = some (.str s) ∧ pyIntOfStr s = some n ∧ 0 < n))) := by
  constructor
  · intro v s
    cases v with
    | none =>
        constructor
        · intro h
          simp [validateConditionScript, requireString] at h
        · rintro ⟨⟨raw', hr, -⟩, -⟩
          cases hr
    | some jv =>
        cases jv with
        | null =>
            constructor
            · intro h
              simp [validateConditionScript, requireString] at h
            · rintro ⟨⟨raw', hr, -⟩, -⟩
              cases hr
        | jbool b =>
            constructor
            · intro h
              simp [validateConditionScript, requireString] at h
            · rintro ⟨⟨raw', hr, -⟩, -⟩
              cases hr
        | num k =>
            constructor
            · intro h
              simp [validateConditionScript, requireString] at h
            · rintro ⟨⟨raw', hr, -⟩, -⟩
              cases hr
        | str raw =>
            by_cases hempty : pyStrip raw = ""
            · have hreq : requireString (some (.str raw))
                  "condition_script" true =
                  .error ("condition_script" ++
                    " must be a non-empty string.") := by
                simp [requireString, hempty]
              simp only [validateConditionScript, hreq]
              constructor
              · intro h
                simp at h
              · rintro ⟨⟨raw', hr, hts⟩, hne, -⟩
                simp only [Option.some.injEq, JVal.str.injEq] at hr
                subst hr
                exact absurd (hts ▸ hempty) hne
            · have hreq : requireString (some (.str raw))
                  "condition_script" true = .ok (pyStrip raw) := by
                simp [requireString, hempty]
              simp only [validateConditionScript, hreq]
              by_cases hps : strEnds (pyStrip raw) ".ps1"
              · by_cases habs : winIsAbsolute (winParse (pyStrip raw)) = true ∨
                    ".." ∈ (winParse (pyStrip raw)).comps
                · rw [if_neg (by simp [hps]), if_pos habs]
                  constructor
                  · intro h
                    simp at h
                  · rintro ⟨⟨raw', hr, hts⟩, -, -, habs', hdots⟩
                    simp only [Option.some.injEq, JVal.str.injEq] at hr
                    subst hr
                    rw [hts] at habs
                    rcases habs with h | h
                    · rw [habs'] at h
                      cases h
                    · exact (hdots h).elim
                · rw [if_neg (by simp [hps]), if_neg habs]
                  push_neg at habs
                  constructor
                  · intro h
                    simp only [Except.ok.injEq] at h
                    subst h
                    exact ⟨⟨raw, rfl, rfl⟩, hempty, hps,
                      by simpa using habs.1, habs.2⟩
                  · rintro ⟨⟨raw', hr, hts⟩, -, -, -, -⟩
                    simp only [Option.some.injEq, JVal.str.injEq] at hr
                    subst hr
                    rw [hts]
              · rw [if_pos (by simp [hps])]
                constructor
                · intro h
                  simp at h
                · rintro ⟨⟨raw', hr, hts⟩, -, hps', -⟩
                  simp only [Option.some.injEq, JVal.str.injEq] at hr
                  subst hr
                  rw [← hts] at hps'
                  exact (hps hps').elim
  · intro v n
    cases v with
    | none =>
        simp only [validateConditionInterval, Except.ok.injEq]
        constructor
        · rintro rfl
          simp
        · rintro (⟨-, hn⟩ | ⟨h, -⟩ | ⟨s', h, -, -⟩)
          · exact hn.symm
          · cases h
          · cases h
    | some jv =>
        cases jv with
        | null =>
            simp only [validateConditionInterval, Except.ok.injEq]
            constructor
            · rintro rfl
              simp
            · rintro (⟨-, hn⟩ | ⟨h, -⟩ | ⟨s', h, -, -⟩)
              · exact hn.symm
              · cases h
              · cases h
        | jbool b =>
            simp only [validateConditionInterval]
            constructor
            · intro h
              simp at h
            · rintro (⟨h | h, -⟩ | ⟨h, -⟩ | ⟨s', h, -, -⟩) <;> cases h
        | num k =>
            simp only [validateConditionInterval]
            split_ifs with hk
            · constructor
              · intro h
                simp at h
              · rintro (⟨h | h, -⟩ | ⟨h, hpos⟩ | ⟨s', h, -, -⟩)
                · cases h
                · cases h
                · simp only [Option.some.injEq, JVal.num.injEq] at h
                  omega
                · cases h
            · simp only [Except.ok.injEq]
              constructor
              · rintro rfl
                exact Or.inr (Or.inl ⟨rfl, by omega⟩)
              · rintro (⟨h | h, -⟩ | ⟨h, -⟩ | ⟨s', h, -, -⟩)
                · cases h
                · cases h
                · simp only [Option.some.injEq, JVal.num.injEq] at h
                  exact h
                · cases h
        | str s0 =>
            rcases hp : pyIntOfStr s0 with _ | k
            · simp only [validateConditionInterval, hp]
              constructor
              · intro h
                simp at h
              · rintro (⟨h | h, -⟩ | ⟨h, -⟩ | ⟨s', h, hps, -⟩)
                · cases h
                · cases h
                · cases h
                · simp only [Option.some.injEq, JVal.str.injEq] at h
                  subst h
                  rw [hp] at hps
                  cases hps
            · simp only [validateConditionInterval, hp]
              split_ifs with hk
              · constructor
                · intro h
                  simp at h
                · rintro (⟨h | h, -⟩ | ⟨h, -⟩ | ⟨s', h, hps, hpos⟩)
                  · cases h
                  · cases h
                  · cases h
                  · simp only [Option.some.injEq, JVal.str.injEq] at h
                    subst h
                    rw [hp] at hps
                    simp only [Option.some.injEq] at hps
                    omega
              · simp only [Except.ok.injEq]
                constructor
                · rintro rfl
                  exact Or.inr (Or.inr ⟨s0, rfl, hp, by omega⟩)
                · rintro (⟨h | h, -⟩ | ⟨h, -⟩ | ⟨s', h, hps, -⟩)
                  · cases h
                  · cases h
                  · cases h
                  · simp only [Option.some.injEq, JVal.str.injEq] at h
                    subst h
                    rw [hp] at hps
                    simp only [Option.some.injEq] at hps
                    exact hps

theorem C9_conditional_validation_witness :
    validateConditionScript (some (.str " sub\\check.ps1 ")) =
      .ok "sub\\check.ps1" ∧
    validateConditionInterval (some (.num 15)) = .ok 15 :=
  ⟨(C9_conditional_validation.1 _ _).2
      ⟨⟨" sub\\check.ps1 ", rfl, rfl⟩, by decide, rfl, rfl, by decide⟩,
   (C9_conditional_validation.2 _ _).2 (Or.inr (Or.inl ⟨rfl, by decide⟩))⟩

/-- Number of leading backslashes. -/
def leadBS (s : String) : Nat :=
  (s.data.takeWhile (fun c => c = '\\')).length

/-- C10 counterexample: for the accepted reference
`www.example.com/a.png` the validator's normalized value keeps the
`www.` prefix (`"https://" + asset`), while `ModuleDefinition` drops the
first four characters (`"https://" + reference[4:]`); resolving the raw
and the normalized value therefore yields different media URLs. -/
theorem C10_counterexample :
    validateOptionalAsset (some (.str "www.example.com/a.png")) "media" =
      .ok (some "https://www.example.com/a.png") ∧
    assignMedia "www.example.com/a.png" =
      .url "https://example.com/a.png" ∧
    assignMedia "https://www.example.com/a.png" =
      .url "https://www.example.com/a.png" ∧
    assignMedia "www.example.com/a.png" ≠
      assignMedia "https://www.example.com/a.png" := by
  refine ⟨rfl, rfl, rfl, ?_⟩
  decide

/-- `repChar` is idempotent. -/
theorem repChar_repChar (c : Char) : repChar (repChar c) = repChar c := by
  by_cases h : c = '/' <;> simp [repChar, h]

/-- Replacing separators twice equals replacing once, at the parse
level. -/
theorem winParse_winReplace (a : String) :
    winParse (winReplace a) = winParse a := by
  unfold winParse winReplace
  simp only [List.map_map]
  have hmap : List.map (repChar ∘ repChar) a.data =
      List.map repChar a.data := by
    refine List.map_congr_left ?_
    intro c _
    exact repChar_repChar c
  rw [hmap]

/-- `_assign_media` on a string with two leading backslashes always takes
the UNC/drive branch. -/
theorem assignMedia_unc (x : String) :
    assignMedia ("\\\\" ++ x) = .winpath (winParse ("\\\\" ++ x)) := rfl

/-- `_assign_icon` on a string with two leading backslashes always takes
the UNC/drive branch. -/
theorem assignIcon_unc (x : String) :
    assignIcon ("\\\\" ++ x) = .winpath (winParse ("\\\\" ++ x)) := rfl

/-- C10 (amended): for every media/icon reference accepted by the
validator that does not start (case-insensitively) with `www.` and, if it
is a UNC reference, has exactly two leading backslashes after separator
replacement, resolving the raw (stripped) reference and the
validator-normalized value through `ModuleDefinition` yields the same
asset; for references beginning with `www.` the two paths produce
different https URLs (the validator keeps the `www.`, the resolver drops
it), per the counterexample. -/
theorem C10_asset_resolution (s field res : String)
    (hval : validateOptionalAsset (some (.str s)) field = .ok (some res))
    (hw : strStarts (strToLower (pyStrip s)) "www." = false)
    (hunc : strStarts (pyStrip s) "\\\\" = true →
      leadBS (winReplace (pyStrip s)) = 2) :
    assignMedia (pyStrip s) = assignMedia res ∧
    assignIcon (pyStrip s) = assignIcon res := by
  have hreq : requireString (some (.str s)) field false = .ok (pyStrip s) := by
    simp [requireString]
  simp only [validateOptionalAsset, hreq] at hval
  by_cases h0 : pyStrip s = ""
  · rw [if_pos h0] at hval
    simp at hval
  rw [if_neg h0] at hval
  by_cases h1 : strStarts (pyStrip s) "preset:" = true
  · rw [if_pos h1] at hval
    simp only [Except.ok.injEq, Option.some.injEq] at hval
    subst hval
    exact ⟨rfl, rfl⟩
  rw [if_neg h1] at hval
  by_cases h2 : strStarts (strToLower (pyStrip s)) "https://" = true ∨
      strStarts (strToLower (pyStrip s)) "http://" = true
  · rw [if_pos h2] at hval
    simp only [Except.ok.injEq, Option.some.injEq] at hval
    subst hval
    exact ⟨rfl, rfl⟩
  rw [if_neg h2] at hval
  rw [if_neg (by simp [hw])] at hval
  by_cases h4 : strStarts (pyStrip s) "\\\\" = true
  · rw [if_pos h4] at hval
    simp only [Except.ok.injEq, Option.some.injEq] at hval
    obtain ⟨t, ht⟩ := List.isPrefixOf_iff_prefix.mp h4
    have hdata2 : (pyStrip s).data = '\\' :: '\\' :: t := by
      rw [← ht]
      rfl
    have hwr : winReplace (pyStrip s) =
        ⟨'\\' :: '\\' :: List.map repChar t⟩ := by
      unfold winReplace
      rw [hdata2]
      rfl
    have hhead : ∀ c rest, List.map repChar t = c :: rest → ¬ c = '\\' := by
      intro c rest hmt hcc
      have hl := hunc h4
      unfold leadBS at hl
      rw [hwr] at hl
      subst hcc
      rw [hmt] at hl
      simp [List.takeWhile] at hl
    have hdrop : ('\\' :: '\\' :: List.map repChar t).dropWhile
        (fun c => c = '\\') = List.map repChar t := by
      rw [List.dropWhile_cons, if_pos (by simp), List.dropWhile_cons,
        if_pos (by simp)]
      cases hmt : List.map repChar t with
      | nil => simp
      | cons c rest =>
          rw [List.dropWhile_cons, if_neg (by simp [hhead c rest hmt])]
    have hstr : ("\\\\" ++
        (⟨(winReplace (pyStrip s)).data.dropWhile (fun c => c = '\\')⟩ :
          String)) = winReplace (pyStrip s) := by
      rw [hwr]
      show ("\\\\" ++ (⟨('\\' :: '\\' :: List.map repChar t).dropWhile
        (fun c => c = '\\')⟩ : String)) = _
      rw [hdrop]
      rfl
    have hbs1 : strStarts (pyStrip s) "\\" = true := by
      unfold strStarts
      rw [hdata2]
      rfl
    have hm : assignMedia (pyStrip s) = .winpath (winParse (pyStrip s)) := by
      simp only [assignMedia]
      rw [if_neg h2, if_neg (by simp [hw]), if_pos (Or.inl hbs1)]
    have hpreset : ¬ strStarts (strToLower (pyStrip s)) "preset:" = true := by
      intro hp
      have : strStarts (pyStrip s) "preset:" = true := by
        unfold strStarts at hp ⊢
        rw [hdata2]
        rw [show (strToLower (pyStrip s)).data =
          Char.toLower '\\' :: Char.toLower '\\' :: t.map Char.toLower by
            simp [strToLower, hdata2]] at hp
        simp [List.isPrefixOf] at hp
      exact h1 this
    have hi : assignIcon (pyStrip s) = .winpath (winParse (pyStrip s)) := by
      simp only [assignIcon]
      rw [if_neg hpreset, if_neg h2, if_neg (by simp [hw]),
        if_pos (Or.inl hbs1)]
    rw [hm, hi, ← hval, assignMedia_unc, assignIcon_unc, hstr,
      winParse_winReplace]
    exact ⟨rfl, rfl⟩
  rw [if_neg h4] at hval
  by_cases h5 : strStarts (pyStrip s) "/" = true
  · rw [if_pos h5] at hval
    simp at hval
  rw [if_neg h5] at hval
  by_cases h6 : looksLikeDrivePath (pyStrip s) = true
  · rw [if_pos h6] at hval
    simp only [Except.ok.injEq, Option.some.injEq] at hval
    subst hval
    exact ⟨rfl, rfl⟩
  rw [if_neg h6] at hval
  by_cases h7 : hasSchemeSep (pyStrip s) = true
  · rw [if_pos h7] at hval
    simp at hval
  rw [if_neg h7] at hval
  split_ifs at hval with h8
  simp only [Except.ok.injEq, Option.some.injEq] at hval
  subst hval
  exact ⟨rfl, rfl⟩

theorem C10_asset_resolution_witness :
    assignMedia (pyStrip " pics/a.png ") = assignMedia "pics/a.png" ∧
    assignIcon (pyStrip " pics/a.png ") = assignIcon "pics/a.png" :=
  C10_asset_resolution " pics/a.png " "media" "pics/a.png" rfl rfl
    (by decide)

/-- The module is not the one currently being presented. -/
def notCurrent (ck : Option String) (m : ReadyMod) : Bool :=
  !decide (ck = some m.key)

/-- First-occurrence deduplication relative to already-seen keys. -/
def dedupNew (seen : List String) : List ReadyMod → List ReadyMod
  | [] => []
  | m :: t =>
      if m.key ∈ seen then dedupNew seen t
      else m :: dedupNew (seen ++ [m.key]) t

/-- The `_handle_load_result` fold splits into first-occurrence
deduplication followed by the current-key / future filters. -/
theorem hlr_foldl (now : Int) (ck : Option String) :
    ∀ (mods : List ReadyMod) (seen : List String) (due : List ReadyMod)
      (fc : Nat),
      (mods.foldl (hlrStep now ck) (seen, due, fc)).2.1 =
        due ++ (dedupNew seen mods).filter
          (fun m => notCurrent ck m && !schedFuture now m) ∧
      (mods.foldl (hlrStep now ck) (seen, due, fc)).2.2 =
        fc + ((dedupNew seen mods).filter
          (fun m => notCurrent ck m && schedFuture now m)).length := by
  intro mods
  induction mods with
  | nil => intro seen due fc; simp [dedupNew]
  | cons m t ih =>
      intro seen due fc
      simp only [List.foldl_cons]
      by_cases hmem : m.key ∈ seen
      · rw [show hlrStep now ck (seen, due, fc) m = (seen, due, fc) by
          simp [hlrStep, hmem]]
        rw [show dedupNew seen (m :: t) = dedupNew seen t by
          simp [dedupNew, hmem]]
        exact ih seen due fc
      · by_cases hck : ck = some m.key
        · rw [show hlrStep now ck (seen, due, fc) m =
              (seen ++ [m.key], due, fc) by simp [hlrStep, hmem, hck]]
          rw [show dedupNew seen (m :: t) =
              m :: dedupNew (seen ++ [m.key]) t by simp [dedupNew, hmem]]
          have hnc : notCurrent ck m = false := by
            simp [notCurrent, hck]
          obtain ⟨ih1, ih2⟩ := ih (seen ++ [m.key]) due fc
          constructor
          · rw [ih1, List.filter_cons, hnc]
            simp
          · rw [ih2, List.filter_cons, hnc]
            simp
        · have hnc : notCurrent ck m = true := by
            simp [notCurrent, hck]
          rw [show dedupNew seen (m :: t) =
              m :: dedupNew (seen ++ [m.key]) t by simp [dedupNew, hmem]]
          by_cases hfut : schedFuture now m = true
          · rw [show hlrStep now ck (seen, due, fc) m =
                (seen ++ [m.key], due, fc + 1) by
                simp [hlrStep, hmem, hck, hfut]]
            obtain ⟨ih1, ih2⟩ := ih (seen ++ [m.key]) due (fc + 1)
            constructor
            · rw [ih1, List.filter_cons, hnc, hfut]
              simp
            · rw [ih2, List.filter_cons, hnc, hfut]
              simp
              omega
          · have hfut' : schedFuture now m = false := by
              simpa using hfut
            rw [show hlrStep now ck (seen, due, fc) m =
                (seen ++ [m.key], due ++ [m], fc) by
                simp [hlrStep, hmem, hck, hfut']]
            obtain ⟨ih1, ih2⟩ := ih (seen ++ [m.key]) (due ++ [m]) fc
            constructor
            · rw [ih1, List.filter_cons, hnc, hfut']
              simp
            · rw [ih2, List.filter_cons, hnc, hfut']
              simp

/-- `dedupNew` relative to a seen set is `dedupByKey` of the unseen
part. -/
theorem dedupNew_eq (mods : List ReadyMod) :
    ∀ seen, dedupNew seen mods =
      dedupByKey (mods.filter (fun x => decide (x.key ∉ seen))) := by
  induction mods with
  | nil => intro seen; simp [dedupNew, dedupByKey]
  | cons m t ih =>
      intro seen
      by_cases hmem : m.key ∈ seen
      · rw [show dedupNew seen (m :: t) = dedupNew seen t by
          simp [dedupNew, hmem]]
        rw [ih seen, List.filter_cons]
        simp [hmem]
      · rw [show dedupNew seen (m :: t) =
            m :: dedupNew (seen ++ [m.key]) t by simp [dedupNew, hmem]]
        rw [ih (seen ++ [m.key]), List.filter_cons,
          if_pos (by simp [hmem])]
        rw [show dedupByKey (m :: List.filter
            (fun x => decide (x.key ∉ seen)) t) =
          m :: dedupByKey ((List.filter (fun x => decide (x.key ∉ seen)) t).filter
            (fun x => x.key ≠ m.key)) from by simp [dedupByKey]]
        congr 1
        rw [List.filter_filter]
        refine congrArg dedupByKey (List.filter_congr ?_)
        intro x _
        simp [List.mem_append, not_or, Bool.decide_and, Bool.and_comm]

/-- C6: the final ready set is deduplicated by key (first occurrence
wins), sorted ascending by `(scheduled_time or now, title)`, and
partitioned into due (`scheduled ≤ now`, in the ready set) versus future
(`scheduled > now`, excluded and only counted); the module currently
being presented is excluded as well. -/
theorem C6_due_future_partition (mods : List ReadyMod) (now : Int)
    (ck : Option String) :
    List.Sorted (hlrLE now) (handleLoadResult mods now ck).1 ∧
    ((handleLoadResult mods now ck).1).Perm
      ((dedupByKey mods).filter
        (fun m => notCurrent ck m && !schedFuture now m)) ∧
    (handleLoadResult mods now ck).2 =
      ((dedupByKey mods).filter
        (fun m => notCurrent ck m && schedFuture now m)).length ∧
    (∀ m ∈ (handleLoadResult mods now ck).1, m.scheduled.getD now ≤ now) := by
  obtain ⟨hdue, hfc⟩ := hlr_foldl now ck mods [] [] 0
  have hdn : dedupNew ([] : List String) mods = dedupByKey mods := by
    rw [dedupNew_eq]
    congr 1
    simp
  rw [hdn] at hdue hfc
  have hres : handleLoadResult mods now ck =
      (List.insertionSort (hlrLE now)
        ((mods.foldl (hlrStep now ck) ([], [], 0)).2.1),
       (mods.foldl (hlrStep now ck) ([], [], 0)).2.2) := rfl
  rw [hres, hdue, hfc]
  simp only [List.nil_append, Nat.zero_add]
  refine ⟨List.sorted_insertionSort _ _, List.perm_insertionSort _ _,
    by simp, ?_⟩
  intro m hm
  have hmem := (List.perm_insertionSort (hlrLE now) _).mem_iff.1 hm
  have hp := List.of_mem_filter hmem
  simp only [Bool.and_eq_true, Bool.not_eq_true'] at hp
  unfold schedFuture at hp
  rcases hs : m.scheduled with _ | t
  · simp [hs]
  · rw [hs] at hp
    have := hp.2
    simp only [decide_eq_false_iff_not, not_lt] at this
    simp [hs, this]

/-- A concrete run of the ready-set partition. -/
def c6wMods : List ReadyMod :=
  [⟨"b", "T", some 50⟩, ⟨"a", "U", some 200⟩, ⟨"b", "V", none⟩]

theorem C6_due_future_partition_witness :
    List.Sorted (hlrLE 100) (handleLoadResult c6wMods 100 none).1 ∧
    ((handleLoadResult c6wMods 100 none).1).Perm
      ((dedupByKey c6wMods).filter
        (fun m => notCurrent none m && !schedFuture 100 m)) ∧
    (handleLoadResult c6wMods 100 none).2 =
      ((dedupByKey c6wMods).filter
        (fun m => notCurrent none m && schedFuture 100 m)).length ∧
    (∀ m ∈ (handleLoadResult c6wMods 100 none).1,
      m.scheduled.getD 100 ≤ 100) :=
  C6_due_future_partition c6wMods 100 none

/-- Two name-sorted lists of name-distinct folders with the same
elements are equal. -/
theorem eq_of_perm_sorted_nodupNames :
    ∀ (l₁ l₂ : List Folder), l₁.Perm l₂ → l₁.Pairwise folderLE →
      l₂.Pairwise folderLE → (l₁.map Folder.name).Nodup → l₁ = l₂ := by
  intro l₁
  induction l₁ with
  | nil =>
      intro l₂ hp _ _ _
      exact (List.Perm.eq_nil hp.symm).symm
  | cons a t ih =>
      intro l₂ hp hs₁ hs₂ hnd
      cases l₂ with
      | nil =>
          have := List.Perm.eq_nil hp
          simp at this
      | cons b t₂ =>
          by_cases hab : a = b
          · subst hab
            have hp' := hp.cons_inv
            have htl := ih t₂ hp' (List.pairwise_cons.1 hs₁).2
              (List.pairwise_cons.1 hs₂).2
              (by
                rw [List.map_cons, List.nodup_cons] at hnd
                exact hnd.2)
            rw [htl]
          · have hamem : a ∈ b :: t₂ := hp.mem_iff.1 (List.mem_cons_self a t)
            have hbmem : b ∈ a :: t := hp.mem_iff.2 (List.mem_cons_self b t₂)
            have hat₂ : a ∈ t₂ := by
              rcases List.mem_cons.1 hamem with h | h
              · exact absurd h hab
              · exact h
            have hbt : b ∈ t := by
              rcases List.mem_cons.1 hbmem with h | h
              · exact absurd h.symm hab
              · exact h
            have h₁ : folderLE a b := (List.pairwise_cons.1 hs₁).1 b hbt
            have h₂ : folderLE b a := (List.pairwise_cons.1 hs₂).1 a hat₂
            have hname : a.name = b.name := le_antisymm h₁ h₂
            have hmem : a.name ∈ t.map Folder.name := by
              rw [hname]
              exact List.mem_map_of_mem Folder.name hbt
            rw [List.map_cons, List.nodup_cons] at hnd
            exact absurd hmem hnd.1

/-- Erasing a folder commutes with name-sorting when names are
distinct. -/
theorem sortFolders_erase (fs : List Folder) (f : Folder)
    (hnd : nodupNames fs) :
    List.insertionSort folderLE (fs.erase f) =
      (List.insertionSort folderLE fs).erase f := by
  have hsub : ((fs.erase f).map Folder.name).Nodup :=
    List.Nodup.sublist ((List.erase_sublist f fs).map Folder.name) hnd
  refine eq_of_perm_sorted_nodupNames _ _ ?_ ?_ ?_ ?_
  · exact (List.perm_insertionSort _ _).trans
      (((List.perm_insertionSort folderLE fs).erase f).symm)
  · exact List.sorted_insertionSort _ _
  · exact List.Pairwise.sublist (List.erase_sublist f _)
      (List.sorted_insertionSort folderLE fs)
  · exact (((List.perm_insertionSort folderLE (fs.erase f)).map
      Folder.name).nodup_iff).2 hsub

/-- C7: a folder whose manifest validation or asset hashing fails is
reported as a `(folder, error)` pair, kept on disk, causes no store read
or write for its key, and removing it from the scanned set changes
neither the ready set nor the final store. -/
theorem C7_invalid_isolation (fs : List Folder) (st : Store) (now si : Int)
    (f : Folder) (e : String)
    (hnd : nodupNames fs) (hf : f ∈ fs) (hc : f.content = .invalid e) :
    (f.name, e) ∈ (scanModules fs st now si).errors ∧
    f ∈ (scanModules fs st now si).fs ∧
    findRec (scanModules fs st now si).store f.name = findRec st f.name ∧
    (scanModules (fs.erase f) st now si).modules =
      (scanModules fs st now si).modules ∧
    (scanModules (fs.erase f) st now si).store =
      (scanModules fs st now si).store ∧
    (scanModules (fs.erase f) st now si).executed =
      (scanModules fs st now si).executed := by
  have hfl : f ∈ List.insertionSort folderLE fs := (mem_sortFolders fs f).2 hf
  have hndl := nodupNames_sortFolders fs hnd
  obtain ⟨l₁, l₂, hsplit, h₁, h₂⟩ :=
    exists_split_of_mem_nodup _ f hfl hndl
  have hfn₁ : f ∉ l₁ := fun hmem => h₁ (List.mem_map_of_mem Folder.name hmem)
  have herase : (List.insertionSort folderLE fs).erase f = l₁ ++ l₂ := by
    rw [hsplit, List.erase_append_right _ hfn₁, List.erase_cons_head]
  have ho : scanModules fs st now si = scanZ now si (l₁ ++ f :: l₂) st := by
    rw [show scanModules fs st now si =
        scanZ now si (List.insertionSort folderLE fs) st from rfl, hsplit]
  have ho' : scanModules (fs.erase f) st now si = scanZ now si (l₁ ++ l₂) st := by
    rw [show scanModules (fs.erase f) st now si =
        scanZ now si (List.insertionSort folderLE (fs.erase f)) st from rfl,
      sortFolders_erase fs f hnd, herase]
  have hstep : scanStep now si
      ⟨(scanZ now si l₁ st).store, [], [], [], []⟩ f =
      ⟨(scanZ now si l₁ st).store, [], [(f.name, e)], [f], []⟩ := by
    simp [scanStep, hc]
  have hsplit2 : scanZ now si (l₁ ++ l₂) st =
      ⟨(scanZ now si l₂ (scanZ now si l₁ st).store).store,
       (scanZ now si l₁ st).modules ++
         (scanZ now si l₂ (scanZ now si l₁ st).store).modules,
       (scanZ now si l₁ st).errors ++
         (scanZ now si l₂ (scanZ now si l₁ st).store).errors,
       (scanZ now si l₁ st).fs ++
         (scanZ now si l₂ (scanZ now si l₁ st).store).fs,
       (scanZ now si l₁ st).executed ++
         (scanZ now si l₂ (scanZ now si l₁ st).store).executed⟩ := by
    show scanList now si (l₁ ++ l₂) _ = _
    rw [scanList_append]
    rw [show scanList now si l₁ ⟨st, [], [], [], []⟩ =
        scanZ now si l₁ st from rfl]
    rw [scanList_decomp]
  rw [ho, ho', scanZ_split, hsplit2]
  simp only [hstep]
  refine ⟨by simp, by simp, ?_, by simp, by trivial, by simp⟩
  rw [scanZ_store_frame now si l₂ _ f.name h₂,
    scanZ_store_frame now si l₁ st f.name h₁]

/-- A failing and a healthy folder for the C7 witness. -/
def c7wBad : Folder := ⟨"bad", .invalid "boom"⟩

def c7wGood : Folder :=
  ⟨"good", .valid { hash := "h", title := "T", category := "G",
                    isConditional := false }⟩

theorem C7_invalid_isolation_witness :
    ("bad", "boom") ∈ (scanModules [c7wBad, c7wGood] [] 5 300).errors ∧
    c7wBad ∈ (scanModules [c7wBad, c7wGood] [] 5 300).fs ∧
    findRec (scanModules [c7wBad, c7wGood] [] 5 300).store "bad" =
      findRec [] "bad" ∧
    (scanModules ([c7wBad, c7wGood].erase c7wBad) [] 5 300).modules =
      (scanModules [c7wBad, c7wGood] [] 5 300).modules ∧
    (scanModules ([c7wBad, c7wGood].erase c7wBad) [] 5 300).store =
      (scanModules [c7wBad, c7wGood] [] 5 300).store ∧
    (scanModules ([c7wBad, c7wGood].erase c7wBad) [] 5 300).executed =
      (scanModules [c7wBad, c7wGood] [] 5 300).executed :=
  C7_invalid_isolation [c7wBad, c7wGood] [] 5 300 c7wBad "boom"
    (by decide) (by decide) rfl

/-!  Idempotence of the scan (C5). -/

theorem parseStatus_eq_pending {x : Option String}
    (h : parseStatus x = some .pending) : x = some "Pending" := by
  unfold parseStatus at h
  split at h <;> simp_all

theorem parseCState_eq_triggered {x : Option String}
    (h : parseCState x = some .triggered) : x = some "Triggered" := by
  unfold parseCState at h
  split at h <;> simp_all

theorem setSchedule_none_self {r : Record} (h : r.scheduledAt = none) :
    setSchedule none r = r := by
  cases r
  simp only [setSchedule]
  simp_all

theorem handleConditionRun_keep_false_ready (now si : Int) (k : String)
    (m : ModInfo) (sched : Option Int) (r : Record)
    (h : (handleConditionRun now si k m sched r).keep = false) :
    (handleConditionRun now si k m sched r).ready = none := by
  cases hsr : m.scriptResult with
  | none => simp [handleConditionRun, hsr]
  | some p =>
      obtain ⟨code, stdout, stderr⟩ := p
      simp only [handleConditionRun, hsr] at h ⊢
      split_ifs at h ⊢ <;> first | rfl | simp_all

theorem handleCondition_keep_false_ready (now si : Int) (k : String)
    (m : ModInfo) (sched : Option Int) (r : Record)
    (h : (handleCondition now si k m sched r).keep = false) :
    (handleCondition now si k m sched r).ready = none := by
  unfold handleCondition at h ⊢
  split_ifs at h ⊢ with hs
  · rfl
  · rcases hc : parseCState r.conditionState with _ | st
    · simp only [hc] at h ⊢
      rcases hn : parseRegTime r.conditionNextRun with _ | t
      · simp only [hn] at h ⊢
        exact handleConditionRun_keep_false_ready _ _ _ _ _ _ h
      · simp only [hn] at h ⊢
        split_ifs at h ⊢ <;>
          first
            | rfl
            | exact handleConditionRun_keep_false_ready _ _ _ _ _ _ h
            | simp_all
    · cases st with
      | waiting =>
          simp only [hc] at h ⊢
          rcases hn : parseRegTime r.conditionNextRun with _ | t
          · simp only [hn] at h ⊢
            exact handleConditionRun_keep_false_ready _ _ _ _ _ _ h
          · simp only [hn] at h ⊢
            split_ifs at h ⊢ <;>
              first
                | rfl
                | exact handleConditionRun_keep_false_ready _ _ _ _ _ _ h
                | simp_all
      | triggered => simp only [hc] at h ⊢; simp at h
      | cerror => simp only [hc]

theorem storedSchedParse_setSchedule (v : Option Int) (r : Record) :
    storedSchedParse (setSchedule v r) = v := by
  cases v <;>
    simp [storedSchedParse, setSchedule, schedTruthy, parseRegTime]

theorem effectiveSched_none {m : ModInfo} {r : Record}
    (h : effectiveSched m r = none) :
    storedSchedParse r = none ∧ m.scheduledUtc = none := by
  unfold effectiveSched at h
  split at h <;> simp_all

theorem storedSchedParse_congr {r' r : Record}
    (h : r'.scheduledAt = r.scheduledAt) :
    storedSchedParse r' = storedSchedParse r := by
  unfold storedSchedParse
  rw [h]

theorem effectiveSched_congr {m : ModInfo} {r' r : Record}
    (h : r'.scheduledAt = r.scheduledAt) :
    effectiveSched m r' = effectiveSched m r := by
  unfold effectiveSched
  rw [storedSchedParse_congr h]

/-- Re-writing the effective schedule does not change the effective
schedule read back on the next scan. -/
theorem effectiveSched_setSchedule_eff (m : ModInfo) (r' r : Record) :
    effectiveSched m (setSchedule (effectiveSched m r) r') =
      effectiveSched m r := by
  rcases he : effectiveSched m r with _ | t
  · unfold effectiveSched
    rw [storedSchedParse_setSchedule]
    exact (effectiveSched_none he).2
  · unfold effectiveSched
    rw [storedSchedParse_setSchedule]

/-- The two schedule facts that hold of any record the engine has just
re-written the schedule of. -/
theorem setSchedule_eff_sched_facts (m : ModInfo) (r' r : Record) :
    (storedSchedParse (setSchedule (effectiveSched m r) r') = none →
      (setSchedule (effectiveSched m r) r').scheduledAt = none ∧
      m.scheduledUtc = none) ∧
    effectiveSched m (setSchedule (effectiveSched m r) r') =
      effectiveSched m r := by
  refine ⟨fun hz => ?_, effectiveSched_setSchedule_eff m r' r⟩
  rw [storedSchedParse_setSchedule] at hz
  exact ⟨by rw [setSchedule_scheduledAt, hz]; rfl, (effectiveSched_none hz).2⟩

/-- Schedule facts for the record produced by an unchanged-fingerprint
reconcile. -/
theorem reconcile_record_sched (m : ModInfo) (r : Record) :
    (storedSchedParse (if (storedSchedParse r).isNone
        then setSchedule (effectiveSched m r) r else r) = none →
      (if (storedSchedParse r).isNone
        then setSchedule (effectiveSched m r) r else r).scheduledAt = none ∧
      m.scheduledUtc = none) ∧
    effectiveSched m (if (storedSchedParse r).isNone
        then setSchedule (effectiveSched m r) r else r) =
      effectiveSched m r := by
  rcases hsp : storedSchedParse r with _ | t
  · simpa using setSchedule_eff_sched_facts m r r
  · simp [hsp]

/-- A step that deletes the folder never reports the module ready. -/
theorem stepValid_keep_false_ready (now si : Int) (k : String) (m : ModInfo)
    (r : Record) (h : (stepValid now si k m r).keep = false) :
    (stepValid now si k m r).ready = none := by
  rcases hrec : reconcile now m r with ⟨r2, status, sched⟩
  simp only [stepValid, hrec] at h ⊢
  split_ifs at h ⊢ <;>
    first
      | rfl
      | exact handleCondition_keep_false_ready _ _ _ _ _ _ h
      | simp_all

/-- What a surviving script run guarantees about the record it leaves:
base fields untouched, condition state either `Triggered` or `Waiting`
with a strictly future next-run, and readiness determined by the state. -/
theorem handleConditionRun_kept_facts (now si : Int) (k : String)
    (m : ModInfo) (sched : Option Int) (rb : Record)
    (hwf : 1 ≤ m.interval)
    (hkeep : (handleConditionRun now si k m sched rb).keep = true) :
    (handleConditionRun now si k m sched rb).record.moduleHash =
      rb.moduleHash ∧
    (handleConditionRun now si k m sched rb).record.status = rb.status ∧
    (handleConditionRun now si k m sched rb).record.scheduledAt =
      rb.scheduledAt ∧
    ((handleConditionRun now si k m sched rb).record.conditionState =
        some "Triggered" ∨
     (parseCState (handleConditionRun now si k m sched rb).record.conditionState
        ≠ some .cerror ∧
      parseCState (handleConditionRun now si k m sched rb).record.conditionState
        ≠ some .triggered ∧
      ∃ t, parseRegTime
          (handleConditionRun now si k m sched rb).record.conditionNextRun =
          some t ∧ now < t)) ∧
    (handleConditionRun now si k m sched rb).ready =
      (if parseCState
            (handleConditionRun now si k m sched rb).record.conditionState ≠
          some .triggered
       then none else some ⟨k, m.title, sched⟩) := by
  cases hsr : m.scriptResult with
  | none =>
      simp only [handleConditionRun, hsr] at hkeep
      exact absurd hkeep (by simp)
  | some p =>
      obtain ⟨code, stdout, stderr⟩ := p
      simp only [handleConditionRun, hsr] at hkeep ⊢
      by_cases h1 : code = 1
      · rw [if_pos h1]
        refine ⟨by simp, by simp, by simp, Or.inl (by simp), ?_⟩
        simp [parseCState]
      · rw [if_neg h1] at hkeep ⊢
        by_cases h0 : code = 0
        · rw [if_pos h0]
          refine ⟨by simp, by simp, by simp,
            Or.inr ⟨by simp [parseCState], by simp [parseCState],
              now + m.interval * 60, by simp [parseRegTime], by omega⟩, ?_⟩
          simp [parseCState]
        · rw [if_neg h0] at hkeep
          exact absurd hkeep (by simp)

/-- What a surviving `_handle_condition_module` call guarantees. -/
theorem handleCondition_kept_facts (now si : Int) (k : String)
    (m : ModInfo) (sched : Option Int) (rb : Record)
    (hwf : 1 ≤ m.interval)
    (hkeep : (handleCondition now si k m sched rb).keep = true) :
    m.scriptExists = true ∧
    (handleCondition now si k m sched rb).record.moduleHash =
      rb.moduleHash ∧
    (handleCondition now si k m sched rb).record.status = rb.status ∧
    (handleCondition now si k m sched rb).record.scheduledAt =
      rb.scheduledAt ∧
    ((handleCondition now si k m sched rb).record.conditionState =
        some "Triggered" ∨
     (parseCState (handleCondition now si k m sched rb).record.conditionState
        ≠ some .cerror ∧
      parseCState (handleCondition now si k m sched rb).record.conditionState
        ≠ some .triggered ∧
      ∃ t, parseRegTime
          (handleCondition now si k m sched rb).record.conditionNextRun =
          some t ∧ now < t)) ∧
    (handleCondition now si k m sched rb).ready =
      (if parseCState
            (handleCondition now si k m sched rb).record.conditionState ≠
          some .triggered
       then none else some ⟨k, m.title, sched⟩) := by
  unfold handleCondition at hkeep ⊢
  by_cases hs : m.scriptExists = true
  case neg =>
    rw [if_pos (by simp [Bool.eq_false_iff.mpr hs])] at hkeep
    exact absurd hkeep (by simp)
  case pos =>
  rw [if_neg (by simp [hs])] at hkeep ⊢
  refine ⟨hs, ?_⟩
  rcases hc : parseCState rb.conditionState with _ | cs
  · simp only [hc] at hkeep ⊢
    rcases hn : parseRegTime rb.conditionNextRun with _ | t
    · simp only [hn] at hkeep ⊢
      exact handleConditionRun_kept_facts now si k m sched rb hwf hkeep
    · simp only [hn] at hkeep ⊢
      by_cases hlt : now < t
      · simp only [if_pos hlt]
        exact ⟨by trivial, by trivial, by trivial, Or.inr ⟨by simp [hc], by simp [hc],
          t, hn, hlt⟩, by simp [hc]⟩
      · simp only [if_neg hlt] at hkeep ⊢
        exact handleConditionRun_kept_facts now si k m sched rb hwf hkeep
  · cases cs with
    | waiting =>
        simp only [hc] at hkeep ⊢
        rcases hn : parseRegTime rb.conditionNextRun with _ | t
        · simp only [hn] at hkeep ⊢
          exact handleConditionRun_kept_facts now si k m sched rb hwf hkeep
        · simp only [hn] at hkeep ⊢
          by_cases hlt : now < t
          · simp only [if_pos hlt]
            exact ⟨by trivial, by trivial, by trivial, Or.inr ⟨by simp [hc], by simp [hc],
              t, hn, hlt⟩, by simp [hc]⟩
          · simp only [if_neg hlt] at hkeep ⊢
            exact handleConditionRun_kept_facts now si k m sched rb hwf hkeep
    | triggered =>
        simp only [hc] at hkeep ⊢
        exact ⟨by trivial, by trivial, by trivial, Or.inl (parseCState_eq_triggered hc),
          by simp [hc]⟩
    | cerror =>
        simp only [hc] at hkeep
        exact absurd hkeep (by simp)

/-- Running the loop body on a record it just wrote (fingerprint stored,
status `Pending`, schedule coherent, condition state `Triggered` or
`Waiting`-with-future-next-run) changes nothing: the record is returned
unchanged, the folder is kept, no error is recorded, no script is run,
and readiness is read off the condition state. -/
theorem stepValid_fixpoint (now si : Int) (k : String) (m : ModInfo)
    (r : Record)
    (h1 : r.moduleHash = some m.hash)
    (h2 : r.status = some "Pending")
    (h3 : isExpired now m = false)
    (h4 : storedSchedParse r = none →
      r.scheduledAt = none ∧ m.scheduledUtc = none)
    (h5 : m.isConditional = true → m.scriptExists = true ∧
      (r.conditionState = some "Triggered" ∨
       (parseCState r.conditionState ≠ some .cerror ∧
        parseCState r.conditionState ≠ some .triggered ∧
        ∃ t, parseRegTime r.conditionNextRun = some t ∧ now < t))) :
    stepValid now si k m r =
      { record := r,
        ready := if m.isConditional = true ∧
                    parseCState r.conditionState ≠ some .triggered
                 then none else some ⟨k, m.title, effectiveSched m r⟩,
        errs := [], keep := true, ran := none } := by
  have hps : parseStatus r.status = some .pending := by rw [h2]; rfl
  have hr2 : (if (storedSchedParse r).isNone
      then setSchedule (effectiveSched m r) r else r) = r := by
    rcases hsp : storedSchedParse r with _ | t
    · obtain ⟨ha, hb⟩ := h4 hsp
      have heff : effectiveSched m r = none := by
        unfold effectiveSched
        rw [hsp, hb]
      simp [heff, setSchedule_none_self ha]
    · simp
  have hrec : reconcile now m r = (r, some .pending, effectiveSched m r) := by
    rw [reconcile_same now h1, hr2, hps]
  simp only [stepValid, hrec]
  rw [if_neg (by simp), if_neg (by simp [h3]),
      if_neg (by simp : ¬ (some MStatus.pending = (none : Option MStatus)))]
  by_cases hcond : m.isConditional = true
  · obtain ⟨hscript, hstate⟩ := h5 hcond
    rw [if_pos hcond]
    unfold handleCondition
    rw [if_neg (by simp [hscript])]
    rcases hstate with htrig | ⟨hnc, hnt, t, hpt, hlt⟩
    · have hpc : parseCState r.conditionState = some .triggered := by
        rw [htrig]; rfl
      simp [hpc, hcond]
    · rcases hpc : parseCState r.conditionState with _ | cs
      · simp only [hpc, hpt, if_pos hlt]
        simp [hcond, hpc]
      · cases cs with
        | waiting =>
            simp only [hpc, hpt, if_pos hlt]
            simp [hcond, hpc]
        | triggered => exact absurd hpc hnt
        | cerror => exact absurd hpc hnc
  · rw [if_neg hcond]
    simp [hcond]

/-- Any run of the loop body that keeps the folder factors through a base
record with the stored fingerprint, status `Pending` and a coherent
schedule: the run is `_handle_condition_module` on that record for a
conditional module, and a plain ready result otherwise. -/
theorem stepValid_kept_shape (now si : Int) (k : String) (m : ModInfo)
    (r : Record) (hkeep : (stepValid now si k m r).keep = true) :
    isExpired now m = false ∧
    ∃ rb, rb.moduleHash = some m.hash ∧ rb.status = some "Pending" ∧
      (storedSchedParse rb = none →
        rb.scheduledAt = none ∧ m.scheduledUtc = none) ∧
      effectiveSched m rb = effectiveSched m r ∧
      stepValid now si k m r =
        (if m.isConditional
         then handleCondition now si k m (effectiveSched m r) rb
         else { record := rb, ready := some ⟨k, m.title, effectiveSched m r⟩,
                errs := [], keep := true, ran := none }) := by
  by_cases hh : r.moduleHash = some m.hash
  · have hrec := @reconcile_same m r now hh
    simp only [stepValid, hrec] at hkeep ⊢
    by_cases hc1 : parseStatus r.status = some .completed ∨
        parseStatus r.status = some .expired
    · rw [if_pos hc1] at hkeep
      exact absurd hkeep (by simp)
    rw [if_neg hc1] at hkeep ⊢
    by_cases hc2 : isExpired now m = true
    · rw [if_pos hc2] at hkeep
      exact absurd hkeep (by simp)
    have hexp : isExpired now m = false := by simpa using hc2
    rw [if_neg hc2] at hkeep ⊢
    refine ⟨hexp, ?_⟩
    have hsched := reconcile_record_sched m r
    have hrvh : (if (storedSchedParse r).isNone
        then setSchedule (effectiveSched m r) r else r).moduleHash =
        some m.hash := by
      split_ifs <;> simp [hh]
    rcases hst : parseStatus r.status with _ | st
    · simp only [hst, if_pos rfl] at hkeep ⊢
      refine ⟨markFirstSeen now m.title m.category
          (if (storedSchedParse r).isNone
           then setSchedule (effectiveSched m r) r else r),
        by rw [markFirstSeen_moduleHash]; exact hrvh, by simp, ?_, ?_, rfl⟩
      · intro hz
        rw [storedSchedParse_congr
          (markFirstSeen_scheduledAt now m.title m.category _)] at hz
        refine ⟨?_, (hsched.1 hz).2⟩
        rw [markFirstSeen_scheduledAt]
        exact (hsched.1 hz).1
      · rw [effectiveSched_congr
          (markFirstSeen_scheduledAt now m.title m.category _)]
        exact hsched.2
    · cases st with
      | pending =>
          have hrs : r.status = some "Pending" := parseStatus_eq_pending hst
          simp only [hst] at hkeep ⊢
          rw [if_neg (by simp : ¬ (some MStatus.pending =
              (none : Option MStatus)))] at hkeep ⊢
          refine ⟨if (storedSchedParse r).isNone
              then setSchedule (effectiveSched m r) r else r,
            hrvh, ?_, hsched.1, hsched.2, rfl⟩
          split_ifs <;> simp [hrs]
      | completed => exact absurd (Or.inl hst) hc1
      | expired => exact absurd (Or.inr hst) hc1
  · have hne : r.moduleHash ≠ some m.hash := hh
    simp only [stepValid, reconcile_changed now hne] at hkeep ⊢
    rw [if_neg (by simp)] at hkeep ⊢
    by_cases hc2 : isExpired now m = true
    · rw [if_pos hc2] at hkeep
      exact absurd hkeep (by simp)
    have hexp : isExpired now m = false := by simpa using hc2
    rw [if_neg hc2] at hkeep ⊢
    rw [if_neg (by simp : ¬ (some MStatus.pending =
        (none : Option MStatus)))] at hkeep ⊢
    have hb := setSchedule_eff_sched_facts m
      (if m.isConditional then
        setCondNextRun now (setCondState "Waiting"
          (markFirstSeen now m.title m.category
            { r with moduleHash := some m.hash }))
       else clearCondTracking
          (markFirstSeen now m.title m.category
            { r with moduleHash := some m.hash })) r
    refine ⟨hexp, setSchedule (effectiveSched m r)
      (if m.isConditional then
        setCondNextRun now (setCondState "Waiting"
          (markFirstSeen now m.title m.category
            { r with moduleHash := some m.hash }))
       else clearCondTracking
          (markFirstSeen now m.title m.category
            { r with moduleHash := some m.hash })),
      ?_, ?_, hb.1, hb.2, rfl⟩
    · rw [setSchedule_moduleHash]
      split_ifs <;> simp
    · rw [setSchedule_status]
      split_ifs <;> simp

/-- Everything a kept run guarantees about the record it wrote back. -/
theorem stepValid_kept_facts (now si : Int) (k : String) (m : ModInfo)
    (r : Record) (hwf : 1 ≤ m.interval)
    (hkeep : (stepValid now si k m r).keep = true) :
    (stepValid now si k m r).record.moduleHash = some m.hash ∧
    (stepValid now si k m r).record.status = some "Pending" ∧
    isExpired now m = false ∧
    (storedSchedParse (stepValid now si k m r).record = none →
      (stepValid now si k m r).record.scheduledAt = none ∧
      m.scheduledUtc = none) ∧
    effectiveSched m (stepValid now si k m r).record = effectiveSched m r ∧
    (m.isConditional = true → m.scriptExists = true ∧
      ((stepValid now si k m r).record.conditionState = some "Triggered" ∨
       (parseCState (stepValid now si k m r).record.conditionState ≠
          some .cerror ∧
        parseCState (stepValid now si k m r).record.conditionState ≠
          some .triggered ∧
        ∃ t, parseRegTime
            (stepValid now si k m r).record.conditionNextRun = some t ∧
          now < t))) ∧
    (stepValid now si k m r).ready =
      (if m.isConditional = true ∧
          parseCState (stepValid now si k m r).record.conditionState ≠
            some .triggered
       then none else some ⟨k, m.title, effectiveSched m r⟩) := by
  obtain ⟨hexp, rb, hb1, hb2, hb3, hb4, hshape⟩ :=
    stepValid_kept_shape now si k m r hkeep
  by_cases hcond : m.isConditional = true
  · rw [hshape, if_pos hcond] at hkeep ⊢
    obtain ⟨hscript, hch, hcs, hcsched, hdisj, hready⟩ :=
      handleCondition_kept_facts now si k m (effectiveSched m r) rb hwf hkeep
    refine ⟨by rw [hch, hb1], by rw [hcs, hb2], hexp, ?_, ?_,
      fun _ => ⟨hscript, hdisj⟩, ?_⟩
    · intro hz
      rw [storedSchedParse_congr hcsched] at hz
      exact ⟨by rw [hcsched]; exact (hb3 hz).1, (hb3 hz).2⟩
    · rw [effectiveSched_congr hcsched, hb4]
    · rw [hready]
      simp [hcond]
  · rw [hshape, if_neg hcond] at hkeep ⊢
    exact ⟨hb1, hb2, hexp, hb3, hb4, fun hc => absurd hc hcond,
      by simp [hcond]⟩

/-- Re-running the loop body on the record a kept run just wrote is a
no-op: same record, same readiness, folder kept, no error, no script
execution. -/
theorem stepValid_idem (now si : Int) (k : String) (m : ModInfo)
    (r : Record) (hwf : 1 ≤ m.interval)
    (hkeep : (stepValid now si k m r).keep = true) :
    stepValid now si k m (stepValid now si k m r).record =
      { record := (stepValid now si k m r).record,
        ready := (stepValid now si k m r).ready,
        errs := [], keep := true, ran := none } := by
  obtain ⟨f1, f2, f3, f4, f5, f6, f7⟩ :=
    stepValid_kept_facts now si k m r hwf hkeep
  have hfix := stepValid_fixpoint now si k m (stepValid now si k m r).record
    f1 f2 f3 f4 f6
  rw [hfix, f5, f7]

/-- The surviving folders of a scan form a sublist of the scanned list
(in particular they stay in scan order). -/
theorem scanZ_fs_sublist (now si : Int) (l : List Folder) (st : Store) :
    (scanZ now si l st).fs.Sublist l := by
  induction l generalizing st with
  | nil => simp [scanZ, scanList]
  | cons f t ih =>
      rw [scanZ_cons]
      simp only
      cases hc : f.content with
      | missing =>
          simp only [scanStep, hc, List.nil_append]
          exact List.Sublist.cons₂ f (ih _)
      | invalid e =>
          simp only [scanStep, hc, List.nil_append]
          exact List.Sublist.cons₂ f (ih _)
      | valid m =>
          simp only [scanStep, hc, List.nil_append]
          split_ifs with hk
          · exact List.Sublist.cons₂ f (ih _)
          · simpa using List.Sublist.cons f (ih _)

/-- Re-scanning the folders a scan left on disk, from the store it left,
reproduces the same ready list, the same store and the same folders. -/
theorem scanZ_idem (now si : Int) (l : List Folder) :
    ∀ st : Store, (∀ g ∈ l, wfFolder g = true) →
    (l.map Folder.name).Nodup →
    (scanZ now si (scanZ now si l st).fs (scanZ now si l st).store).modules =
      (scanZ now si l st).modules ∧
    (scanZ now si (scanZ now si l st).fs (scanZ now si l st).store).store =
      (scanZ now si l st).store ∧
    (scanZ now si (scanZ now si l st).fs (scanZ now si l st).store).fs =
      (scanZ now si l st).fs := by
  induction l with
  | nil =>
      intro st _ _
      refine ⟨?_, ?_, ?_⟩ <;> simp [scanZ, scanList]
  | cons f t ih =>
      intro st hwf hnd
      have hwft : ∀ g ∈ t, wfFolder g = true :=
        fun g hg => hwf g (List.mem_cons_of_mem f hg)
      have hndt : (t.map Folder.name).Nodup := by
        simp only [List.map_cons, List.nodup_cons] at hnd
        exact hnd.2
      have hft : f.name ∉ t.map Folder.name := by
        simp only [List.map_cons, List.nodup_cons] at hnd
        exact hnd.1
      cases hc : f.content with
      | missing =>
          have hs : ∀ σ : Store, scanStep now si ⟨σ, [], [], [], []⟩ f =
              ⟨σ, [],
               [(f.name, "Missing manifest.json in " ++ f.name)], [f], []⟩ :=
            fun σ => by simp [scanStep, hc]
          rw [scanZ_cons]
          simp only [hs, List.nil_append, List.singleton_append]
          rw [scanZ_cons]
          simp only [hs, List.nil_append, List.singleton_append]
          obtain ⟨ihm, ihs, ihf⟩ := ih st hwft hndt
          exact ⟨ihm, ihs, by rw [ihf]⟩
      | invalid e =>
          have hs : ∀ σ : Store, scanStep now si ⟨σ, [], [], [], []⟩ f =
              ⟨σ, [], [(f.name, e)], [f], []⟩ :=
            fun σ => by simp [scanStep, hc]
          rw [scanZ_cons]
          simp only [hs, List.nil_append, List.singleton_append]
          rw [scanZ_cons]
          simp only [hs, List.nil_append, List.singleton_append]
          obtain ⟨ihm, ihs, ihf⟩ := ih st hwft hndt
          exact ⟨ihm, ihs, by rw [ihf]⟩
      | valid m =>
          have hwfm : 1 ≤ m.interval :=
            wfFolder_valid (hwf f (List.mem_cons_self f t)) hc
          have hs : scanStep now si ⟨st, [], [], [], []⟩ f =
              ⟨updateRec st f.name
                  (stepValid now si f.name m (lookupRec st f.name)).record,
               (match (stepValid now si f.name m
                   (lookupRec st f.name)).ready with
                 | some rm => [rm] | none => []),
               (stepValid now si f.name m (lookupRec st f.name)).errs,
               (if (stepValid now si f.name m (lookupRec st f.name)).keep
                then [f] else []),
               (match (stepValid now si f.name m
                   (lookupRec st f.name)).ran with
                 | some t0 => [(f.name, t0)] | none => [])⟩ := by
            simp [scanStep, hc]
          rw [scanZ_cons]
          simp only [hs, List.nil_append]
          obtain ⟨ihm, ihs, ihf⟩ := ih (updateRec st f.name
            (stepValid now si f.name m (lookupRec st f.name)).record)
            hwft hndt
          have hfind : findRec (scanZ now si t (updateRec st f.name
              (stepValid now si f.name m (lookupRec st f.name)).record)).store
                f.name =
              some (stepValid now si f.name m (lookupRec st f.name)).record := by
            rw [scanZ_store_frame now si t _ f.name hft,
              findRec_updateRec_self]
          have hlk : lookupRec (scanZ now si t (updateRec st f.name
              (stepValid now si f.name m (lookupRec st f.name)).record)).store
                f.name =
              (stepValid now si f.name m (lookupRec st f.name)).record := by
            unfold lookupRec
            rw [scanZ_store_frame now si t _ f.name hft,
              findRec_updateRec_self]
            rfl
          by_cases hkeep :
              (stepValid now si f.name m (lookupRec st f.name)).keep = true
          · have hidem := stepValid_idem now si f.name m
              (lookupRec st f.name) hwfm hkeep
            rw [if_pos hkeep]
            simp only [List.singleton_append]
            rw [scanZ_cons]
            have hs₂ : scanStep now si
                ⟨(scanZ now si t (updateRec st f.name
                    (stepValid now si f.name m
                      (lookupRec st f.name)).record)).store,
                  [], [], [], []⟩ f =
                ⟨(scanZ now si t (updateRec st f.name
                    (stepValid now si f.name m
                      (lookupRec st f.name)).record)).store,
                 (match (stepValid now si f.name m
                     (lookupRec st f.name)).ready with
                   | some rm => [rm] | none => []),
                 [], [f], []⟩ := by
              simp only [scanStep, hc]
              rw [hlk, hidem, updateRec_self _ _ _ hfind]
              simp
            simp only [hs₂, List.nil_append, List.singleton_append]
            refine ⟨?_, ihs, ?_⟩
            · rw [ihm]
            · rw [ihf]
          · have hkf : (stepValid now si f.name m
                (lookupRec st f.name)).keep = false := by
              revert hkeep
              cases (stepValid now si f.name m (lookupRec st f.name)).keep <;>
                simp
            have hrdy := stepValid_keep_false_ready now si f.name m
              (lookupRec st f.name) hkf
            rw [if_neg hkeep]
            simp only [hrdy, List.nil_append]
            exact ⟨ihm, ihs, ihf⟩

/-- C5: for every modules root (with distinct folder names and the
positive condition intervals `_coerce_interval` guarantees), store and
scan time, scanning the folders a scan left on disk from the store it
left, at the same time and scan interval, reproduces the same ready list
and leaves the store exactly as the first scan left it. -/
theorem C5_scan_idempotent (fs : List Folder) (st : Store) (now si : Int)
    (hwf : wfFs fs) (hnd : nodupNames fs) :
    (scanModules (scanModules fs st now si).fs
        (scanModules fs st now si).store now si).modules =
      (scanModules fs st now si).modules ∧
    (scanModules (scanModules fs st now si).fs
        (scanModules fs st now si).store now si).store =
      (scanModules fs st now si).store := by
  have hl_wf : ∀ g ∈ List.insertionSort folderLE fs, wfFolder g = true :=
    fun g hg => hwf g ((mem_sortFolders fs g).1 hg)
  have hl_nd := nodupNames_sortFolders fs hnd
  obtain ⟨ihm, ihs, _⟩ :=
    scanZ_idem now si (List.insertionSort folderLE fs) st hl_wf hl_nd
  have hsorted :
      (scanZ now si (List.insertionSort folderLE fs) st).fs.Sorted folderLE :=
    List.Pairwise.sublist (scanZ_fs_sublist now si _ st)
      (List.sorted_insertionSort folderLE fs)
  have hsortid : List.insertionSort folderLE
      (scanZ now si (List.insertionSort folderLE fs) st).fs =
      (scanZ now si (List.insertionSort folderLE fs) st).fs :=
    List.Sorted.insertionSort_eq hsorted
  constructor
  · show (scanZ now si (List.insertionSort folderLE
        (scanZ now si (List.insertionSort folderLE fs) st).fs)
        (scanZ now si (List.insertionSort folderLE fs) st).store).modules = _
    rw [hsortid]
    exact ihm
  · show (scanZ now si (List.insertionSort folderLE
        (scanZ now si (List.insertionSort folderLE fs) st).fs)
        (scanZ now si (List.insertionSort folderLE fs) st).store).store = _
    rw [hsortid]
    exact ihs

/-- Concrete one-module root for the C5 witness. -/
def c5wMod : ModInfo :=
  { hash := "h", title := "T", category := "G", isConditional := false }

def c5wFs : List Folder := [⟨"a", .valid c5wMod⟩]

theorem C5_scan_idempotent_witness :
    wfFs c5wFs ∧ nodupNames c5wFs ∧
    ((scanModules (scanModules c5wFs [] 0 300).fs
        (scanModules c5wFs [] 0 300).store 0 300).modules =
      (scanModules c5wFs [] 0 300).modules ∧
     (scanModules (scanModules c5wFs [] 0 300).fs
        (scanModules c5wFs [] 0 300).store 0 300).store =
      (scanModules c5wFs [] 0 300).store) :=
  ⟨by decide, by decide,
    C5_scan_idempotent c5wFs [] 0 300 (by decide) (by decide)⟩

end WN
